import Mathlib

/-!
Verification of the hex-world assembly pipeline of the arc-citadel repository.

The definitions below are shallow embeddings of the Python modules
`worldgen/hex_coords.py`, `worldgen/adjacency.py`,
`worldgen/assembly/layout_solver.py`, `worldgen/assembly/assembler.py`,
`worldgen/connector_generator.py` and `worldgen/filler_generator.py`.

Modelling conventions:
* Python `dict` values keyed by `"q,r"` strings are modelled as association
  lists keyed by the pair `(q, r) : Int × Int` (`coords_to_key` /
  `key_to_coords` form a bijection between the two representations).
* Python `float` values produced by `random.random()` and the arithmetic on
  them are modelled over `ℚ`; calls to the `random` module are modelled by an
  explicit stream of rationals threaded through the computation.
* Python `set` objects are modelled as `Finset`s when only membership and
  intersection are used; where the code iterates over a set, the model
  iterates over `Finset.toList` (one admissible iteration order).
* Code paths on which Python would raise an exception are modelled by
  `Option`-valued functions returning `none`.
-/

namespace Worldgen

/-! ## hex_coords.py -/

/-- Neighbor offsets indexed by edge number (clockwise from E),
from `HEX_NEIGHBOR_OFFSETS`. -/
def hexNeighborOffsets : List (Int × Int) :=
  [(1, 0), (1, -1), (0, -1), (-1, 0), (-1, 1), (0, 1)]

theorem hexNeighborOffsets_length : hexNeighborOffsets.length = 6 := rfl

/-- `get_neighbor(q, r, edge)`: coordinates of the neighbor connected by the
given edge. -/
def getNeighbor (q r : Int) (edge : Fin 6) : Int × Int :=
  let offset := hexNeighborOffsets.get (Fin.cast hexNeighborOffsets_length.symm edge)
  (q + offset.1, r + offset.2)

/-- `get_opposite_edge(edge) = (edge + 3) % 6`. -/
def getOppositeEdge (edge : Fin 6) : Fin 6 :=
  ⟨(edge.val + 3) % 6, Nat.mod_lt _ (by omega)⟩

/-- `get_all_neighbors(q, r)`: all 6 neighbors with their connecting edge. -/
def getAllNeighbors (q r : Int) : List (Int × Int × Nat) :=
  hexNeighborOffsets.enum.map (fun p => (q + p.2.1, r + p.2.2, p.1))

/-- `distance(q1, r1, q2, r2)`: axial hex distance
`(|q1-q2| + |q1+r1-q2-r2| + |r1-r2]) // 2`. -/
def distance (q1 r1 q2 r2 : Int) : Nat :=
  ((q1 - q2).natAbs + (q1 + r1 - q2 - r2).natAbs + (r1 - r2).natAbs) / 2

/-- C10: each of the six neighbor offsets moves to a hex at distance exactly 1
from the original hex. -/
theorem distance_getNeighbor_eq_one (q r : Int) (edge : Fin 6) :
    distance q r (getNeighbor q r edge).1 (getNeighbor q r edge).2 = 1 := by
  fin_cases edge <;>
    simp [distance, getNeighbor, hexNeighborOffsets, List.get] <;> omega

/-! ## schemas/base.py, schemas/tagged.py, schemas/world.py -/

/-- `Terrain` enum from `schemas/base.py`. -/
inductive Terrain where
  | deep_water | shallow_water | marsh | plains | hills | forest
  | dense_forest | mountains | high_mountains | desert | tundra
  | volcanic | glacier | underground | cavern
deriving DecidableEq, Repr

/-- `EdgeType` enum from `schemas/tagged.py`. -/
inductive EdgeType where
  | tunnel | road | water | wilderness | entrance | blocked
deriving DecidableEq, Repr

/-- `SpeciesFitness` from `schemas/base.py` (floats modelled as `ℚ`). -/
structure SpeciesFitness where
  human : ℚ
  dwarf : ℚ
  elf : ℚ
deriving DecidableEq, Repr

/-- `HexCoord` from `schemas/base.py`. -/
structure HexCoord where
  q : Int
  r : Int
deriving DecidableEq, Repr

/-- `WorldHex` from `schemas/world.py`; the fields never touched by the code
modelled here (`resources`, `features`, `name`, `description`, `tags`,
`edge_types`, `component_id`) are omitted. -/
structure WorldHex where
  coord : HexCoord
  terrain : Terrain
  elevation : ℚ
  moisture : ℚ
  temperature : ℚ
  species_fitness : SpeciesFitness
  cluster_id : Option String := none
deriving DecidableEq, Repr

/-- `TaggedHex` from `schemas/tagged.py`; only the fields read by
`AdjacencyValidator` are modelled. The pydantic validator enforces
`edge_types.length = 6`; theorems take that as a hypothesis. -/
structure TaggedHex where
  q : Int
  r : Int
  name : String
  description : String
  tags : List String
  edge_types : List EdgeType
deriving DecidableEq, Repr

/-- `FoundingContext` from `schemas/tagged.py` (numeric modifier fields,
unread by the validator, are omitted). -/
structure FoundingContext where
  season : String
  bias_tags : List String := []
  bias_against : List String := []
  flavor : String := ""
deriving DecidableEq, Repr

/-! ## Python `dict` model

A Python `dict` keyed by hex-coordinate strings is modelled as an association
list with at most one binding per key; `dictInsert` replaces the binding in
place when the key is present (Python `d[k] = v`), otherwise appends. -/

/-- Lookup: `d.get(k)` / `d[k]` (the first binding of `k`, if any). -/
def dictFind? {α β : Type} [DecidableEq α] (d : List (α × β)) (k : α) : Option β :=
  match d with
  | [] => none
  | (k0, v0) :: rest => if k0 = k then some v0 else dictFind? rest k

/-- Assignment `d[k] = v`: replace the first binding of `k`, else append. -/
def dictInsert {α β : Type} [DecidableEq α] (d : List (α × β)) (k : α) (v : β) :
    List (α × β) :=
  match d with
  | [] => [(k, v)]
  | (k0, v0) :: rest =>
      if k0 = k then (k, v) :: rest else (k0, v0) :: dictInsert rest k v

/-- `d.keys()`. -/
def dictKeys {α β : Type} (d : List (α × β)) : List α := d.map (·.1)

theorem dictFind?_insert_self {α β : Type} [DecidableEq α]
    (d : List (α × β)) (k : α) (v : β) :
    dictFind? (dictInsert d k v) k = some v := by
  induction d with
  | nil => simp [dictInsert, dictFind?]
  | cons p rest ih =>
      obtain ⟨k0, v0⟩ := p
      by_cases h : k0 = k <;> simp [dictInsert, dictFind?, h, ih]

theorem dictFind?_insert_ne {α β : Type} [DecidableEq α]
    (d : List (α × β)) (k k' : α) (v : β) (h : k' ≠ k) :
    dictFind? (dictInsert d k v) k' = dictFind? d k' := by
  induction d with
  | nil => simp [dictInsert, dictFind?, Ne.symm h]
  | cons p rest ih =>
      obtain ⟨k0, v0⟩ := p
      by_cases h0 : k0 = k
      · subst h0
        simp [dictInsert, dictFind?, Ne.symm h]
      · by_cases h1 : k0 = k' <;> simp [dictInsert, dictFind?, h0, h1, h, ih]

theorem dictKeys_cons {α β : Type} (k0 : α) (v0 : β) (rest : List (α × β)) :
    dictKeys ((k0, v0) :: rest) = k0 :: dictKeys rest := rfl

theorem mem_dictKeys_insert {α β : Type} [DecidableEq α]
    (d : List (α × β)) (k k' : α) (v : β) :
    k' ∈ dictKeys (dictInsert d k v) ↔ k' = k ∨ k' ∈ dictKeys d := by
  induction d with
  | nil => simp [dictInsert, dictKeys]
  | cons p rest ih =>
      obtain ⟨k0, v0⟩ := p
      by_cases h : k0 = k
      · subst h
        simp only [dictInsert, eq_self_iff_true, if_true, dictKeys_cons,
          List.mem_cons]
        tauto
      · simp only [dictInsert, if_neg h, dictKeys_cons, List.mem_cons, ih]
        tauto

theorem dictFind?_isSome_of_mem_keys {α β : Type} [DecidableEq α]
    (d : List (α × β)) (k : α) (h : k ∈ dictKeys d) :
    ∃ v, dictFind? d k = some v := by
  induction d with
  | nil => simp [dictKeys] at h
  | cons p rest ih =>
      obtain ⟨k0, v0⟩ := p
      by_cases h0 : k0 = k
      · exact ⟨v0, by simp [dictFind?, h0]⟩
      · rw [dictKeys_cons, List.mem_cons] at h
        rcases h with h | h
        · exact absurd h.symm h0
        · obtain ⟨v, hv⟩ := ih h
          exact ⟨v, by simpa [dictFind?, h0] using hv⟩

theorem mem_keys_of_dictFind?_eq_some {α β : Type} [DecidableEq α]
    {d : List (α × β)} {k : α} {v : β} (h : dictFind? d k = some v) :
    k ∈ dictKeys d := by
  induction d with
  | nil => simp [dictFind?] at h
  | cons p rest ih =>
      obtain ⟨k0, v0⟩ := p
      by_cases h0 : k0 = k
      · rw [dictKeys_cons, List.mem_cons]
        exact Or.inl h0.symm
      · simp only [dictFind?, if_neg h0] at h
        rw [dictKeys_cons, List.mem_cons]
        exact Or.inr (ih h)

theorem mem_of_dictFind?_eq_some {α β : Type} [DecidableEq α]
    {d : List (α × β)} {k : α} {v : β} (h : dictFind? d k = some v) :
    (k, v) ∈ d := by
  induction d with
  | nil => simp [dictFind?] at h
  | cons p rest ih =>
      obtain ⟨k0, v0⟩ := p
      by_cases h0 : k0 = k
      · simp [dictFind?, h0] at h
        simp [h0, h]
      · simp [dictFind?, h0] at h
        simp [ih h]

/-! ## adjacency.py — `AdjacencyValidator` -/

/-- The constraint configuration loaded from `hex_tags.toml`
(`self.config` plus the derived lookup sets built in `__init__`).
Unordered pairs (`frozenset(pair)`) are modelled as `Finset String`. -/
structure AdjacencyConfig where
  terrain_values : List String
  culture_values : List String
  function_values : List String
  incompatible_terrain : List (Finset String)
  culture_tensions : List (Finset String)
  function_clashes : List (Finset String)

/-- Structured form of the error strings appended by the validator. -/
inductive AdjError where
  | terrainIncompatible (terrain_a terrain_b : String)
  | edgeMismatch (edge : Nat) (edge_from_a : EdgeType)
      (opposite_edge : Nat) (edge_from_b : EdgeType)
  | foundingViolation (violations : Finset String) (bias_against : List String)
deriving DecidableEq

/-- Structured form of the warning strings appended by the validator. -/
inductive AdjWarning where
  | cultureTension (culture_a culture_b : String)
  | functionClash (function_a function_b : String)
  | foundingSuggestion (bias_tags : List String)
deriving DecidableEq

/-- `ValidationResult` dataclass. -/
structure ValidationResult where
  valid : Bool
  errors : List AdjError := []
  warnings : List AdjWarning := []
deriving DecidableEq

/-- `AdjacencyValidator.MATCHING_EDGES = {TUNNEL, ROAD, WATER}`. -/
def MATCHING_EDGES : Finset EdgeType :=
  {EdgeType.tunnel, EdgeType.road, EdgeType.water}

/-- `_get_terrain_tag`: the first tag that is a TERRAIN category value. -/
def getTerrainTag (cfg : AdjacencyConfig) (tags : List String) : Option String :=
  tags.find? (fun tag => tag ∈ cfg.terrain_values)

/-- `_get_culture_tags`. -/
def getCultureTags (cfg : AdjacencyConfig) (tags : List String) : List String :=
  tags.filter (fun tag => tag ∈ cfg.culture_values)

/-- `_get_function_tags`. -/
def getFunctionTags (cfg : AdjacencyConfig) (tags : List String) : List String :=
  tags.filter (fun tag => tag ∈ cfg.function_values)

/-- Step 1 of `validate_adjacency`: the hard terrain-compatibility check. -/
def terrainCheckErrors (cfg : AdjacencyConfig) (hex_a hex_b : TaggedHex) :
    List AdjError :=
  match getTerrainTag cfg hex_a.tags, getTerrainTag cfg hex_b.tags with
  | some terrain_a, some terrain_b =>
      if ({terrain_a, terrain_b} : Finset String) ∈ cfg.incompatible_terrain then
        [AdjError.terrainIncompatible terrain_a terrain_b]
      else []
  | _, _ => []

/-- Step 3 of `validate_adjacency`: soft culture-tension warnings. -/
def cultureTensionWarnings (cfg : AdjacencyConfig) (hex_a hex_b : TaggedHex) :
    List AdjWarning :=
  (getCultureTags cfg hex_a.tags).flatMap (fun ca =>
    (getCultureTags cfg hex_b.tags).filterMap (fun cb =>
      if ({ca, cb} : Finset String) ∈ cfg.culture_tensions then
        some (AdjWarning.cultureTension ca cb)
      else none))

/-- Step 4 of `validate_adjacency`: soft function-clash warnings. -/
def functionClashWarnings (cfg : AdjacencyConfig) (hex_a hex_b : TaggedHex) :
    List AdjWarning :=
  (getFunctionTags cfg hex_a.tags).flatMap (fun fa =>
    (getFunctionTags cfg hex_b.tags).filterMap (fun fb =>
      if ({fa, fb} : Finset String) ∈ cfg.function_clashes then
        some (AdjWarning.functionClash fa fb)
      else none))

/-- `AdjacencyValidator.validate_adjacency(hex_a, hex_b, edge)`.
Returns `none` exactly where Python would raise an `IndexError`
(an `edge_types` list shorter than the accessed index). -/
def validateAdjacency (cfg : AdjacencyConfig) (hex_a hex_b : TaggedHex)
    (edge : Fin 6) : Option ValidationResult := do
  let errors1 := terrainCheckErrors cfg hex_a hex_b
  let edge_from_a ← hex_a.edge_types.get? edge.val
  let opposite_edge := getOppositeEdge edge
  let edge_from_b ← hex_b.edge_types.get? opposite_edge.val
  let errors2 : List AdjError :=
    if edge_from_a ∈ MATCHING_EDGES ∨ edge_from_b ∈ MATCHING_EDGES then
      if edge_from_a ≠ edge_from_b then
        [AdjError.edgeMismatch edge.val edge_from_a
          opposite_edge.val edge_from_b]
      else []
    else []
  let errors := errors1 ++ errors2
  let warnings := cultureTensionWarnings cfg hex_a hex_b ++
    functionClashWarnings cfg hex_a hex_b
  some { valid := errors.length = 0, errors := errors, warnings := warnings }

/-- Recognizer for the edge-mismatch error. -/
def isEdgeMismatchErr : AdjError → Bool
  | AdjError.edgeMismatch .. => true
  | _ => false

/-- `AdjacencyValidator.validate_founding_constraints(hex, founding_context)`. -/
def validateFoundingConstraints (hex : TaggedHex)
    (founding_context : Option FoundingContext) : ValidationResult :=
  match founding_context with
  | none => { valid := true }
  | some ctx =>
      let tag_set := hex.tags.toFinset
      let forbidden := ctx.bias_against.toFinset
      let violations := tag_set ∩ forbidden
      let errors : List AdjError :=
        if violations ≠ ∅ then
          [AdjError.foundingViolation violations ctx.bias_against]
        else []
      let preferred := ctx.bias_tags.toFinset
      let warnings : List AdjWarning :=
        if preferred ≠ ∅ ∧ tag_set ∩ preferred = ∅ then
          [AdjWarning.foundingSuggestion ctx.bias_tags]
        else []
      { valid := errors.length = 0, errors := errors, warnings := warnings }

theorem terrainCheckErrors_no_mismatch (cfg : AdjacencyConfig)
    (hex_a hex_b : TaggedHex) :
    ∀ err ∈ terrainCheckErrors cfg hex_a hex_b, isEdgeMismatchErr err = false := by
  unfold terrainCheckErrors
  cases getTerrainTag cfg hex_a.tags with
  | none => simp
  | some ta =>
      cases getTerrainTag cfg hex_b.tags with
      | none => simp
      | some tb =>
          by_cases h : ({ta, tb} : Finset String) ∈ cfg.incompatible_terrain <;>
            simp [h, isEdgeMismatchErr]

/-- C4: `validate_adjacency` emits an edge-mismatch hard error iff the two
facing edge types differ and at least one of them lies in
`MATCHING_EDGES = {tunnel, road, water}`; in particular differing edge
types outside that set produce no edge-mismatch error. -/
theorem validateAdjacency_edge_mismatch_iff (cfg : AdjacencyConfig)
    (hex_a hex_b : TaggedHex) (edge : Fin 6)
    (ha : hex_a.edge_types.length = 6) (hb : hex_b.edge_types.length = 6) :
    ∃ res, validateAdjacency cfg hex_a hex_b edge = some res ∧
      ((∃ err ∈ res.errors, isEdgeMismatchErr err = true) ↔
        (hex_a.edge_types.getD edge.val EdgeType.blocked ≠
            hex_b.edge_types.getD ((edge.val + 3) % 6) EdgeType.blocked ∧
          (hex_a.edge_types.getD edge.val EdgeType.blocked ∈ MATCHING_EDGES ∨
            hex_b.edge_types.getD ((edge.val + 3) % 6) EdgeType.blocked ∈
              MATCHING_EDGES))) := by
  have hlt_a : edge.val < hex_a.edge_types.length := by
    rw [ha]; exact edge.isLt
  have hlt_b : (edge.val + 3) % 6 < hex_b.edge_types.length := by
    rw [hb]; exact Nat.mod_lt _ (by omega)
  have hea : hex_a.edge_types.get? edge.val =
      some (hex_a.edge_types.getD edge.val EdgeType.blocked) := by
    rw [List.getD_eq_getElem?_getD, List.getElem?_eq_getElem hlt_a,
      List.get?_eq_getElem?, List.getElem?_eq_getElem hlt_a]
    rfl
  have heb : hex_b.edge_types.get? ((getOppositeEdge edge).val) =
      some (hex_b.edge_types.getD ((edge.val + 3) % 6) EdgeType.blocked) := by
    show hex_b.edge_types.get? ((edge.val + 3) % 6) = _
    rw [List.getD_eq_getElem?_getD, List.getElem?_eq_getElem hlt_b,
      List.get?_eq_getElem?, List.getElem?_eq_getElem hlt_b]
    rfl
  set ea := hex_a.edge_types.getD edge.val EdgeType.blocked with hea_def
  set eb := hex_b.edge_types.getD ((edge.val + 3) % 6) EdgeType.blocked
    with heb_def
  simp only [validateAdjacency, hea, heb, Option.some_bind]
  refine ⟨_, rfl, ?_⟩
  constructor
  · rintro ⟨err, hmem, hism⟩
    simp only [List.mem_append] at hmem
    rcases hmem with hmem | hmem
    · exact absurd hism (by simp [terrainCheckErrors_no_mismatch cfg hex_a hex_b err hmem])
    · by_cases hM : ea ∈ MATCHING_EDGES ∨ eb ∈ MATCHING_EDGES
      · by_cases hne : ea ≠ eb
        · exact ⟨hne, hM⟩
        · simp [hM, hne] at hmem
      · simp [hM] at hmem
  · rintro ⟨hne, hM⟩
    refine ⟨AdjError.edgeMismatch edge.val ea ((edge.val + 3) % 6) eb, ?_, rfl⟩
    simp [hM, hne]
    exact Or.inr rfl

/-- C5: founding-constraint validation — a `bias_against` violation is a
single hard error carrying every violating tag; a missed non-empty
`bias_tags` preference alone yields exactly one warning and no error;
and a `None` context validates trivially. -/
theorem validateFoundingConstraints_spec (hex : TaggedHex) :
    (∀ ctx : FoundingContext,
        hex.tags.toFinset ∩ ctx.bias_against.toFinset ≠ ∅ →
        (validateFoundingConstraints hex (some ctx)).valid = false ∧
        (validateFoundingConstraints hex (some ctx)).errors =
          [AdjError.foundingViolation
            (hex.tags.toFinset ∩ ctx.bias_against.toFinset) ctx.bias_against]) ∧
    (∀ ctx : FoundingContext,
        hex.tags.toFinset ∩ ctx.bias_against.toFinset = ∅ →
        ctx.bias_tags ≠ [] →
        (∀ t ∈ hex.tags, t ∉ ctx.bias_tags) →
        (validateFoundingConstraints hex (some ctx)).valid = true ∧
        (validateFoundingConstraints hex (some ctx)).errors = [] ∧
        (validateFoundingConstraints hex (some ctx)).warnings =
          [AdjWarning.foundingSuggestion ctx.bias_tags]) ∧
    validateFoundingConstraints hex none =
      { valid := true, errors := [], warnings := [] } := by
  refine ⟨?_, ?_, rfl⟩
  · intro ctx hviol
    simp [validateFoundingConstraints, hviol]
  · intro ctx hnoviol hne hmiss
    have hpref : ctx.bias_tags.toFinset ≠ ∅ := by
      simpa [List.toFinset_eq_empty_iff] using hne
    have hint : hex.tags.toFinset ∩ ctx.bias_tags.toFinset = ∅ := by
      rw [Finset.eq_empty_iff_forall_not_mem]
      intro t ht
      rw [Finset.mem_inter, List.mem_toFinset, List.mem_toFinset] at ht
      exact hmiss t ht.1 ht.2
    simp [validateFoundingConstraints, hnoviol, hpref, hint]

/-! Concrete inputs used by the witness theorems for C4 and C5. -/

/-- A sample constraint configuration. -/
def cfgW : AdjacencyConfig where
  terrain_values := ["underground", "surface"]
  culture_values := ["dwarven", "elven"]
  function_values := ["military", "market"]
  incompatible_terrain := [({"underground", "underwater"} : Finset String)]
  culture_tensions := [({"dwarven", "elven"} : Finset String)]
  function_clashes := []

/-- A sample tagged hex whose east edge is a road. -/
def hexWA : TaggedHex where
  q := 0
  r := 0
  name := "gatehouse"
  description := "a gatehouse"
  tags := ["surface", "military"]
  edge_types := [EdgeType.road, EdgeType.wilderness, EdgeType.wilderness,
    EdgeType.wilderness, EdgeType.wilderness, EdgeType.wilderness]

/-- A sample tagged hex whose west edge is wilderness (mismatching the road). -/
def hexWB : TaggedHex where
  q := 1
  r := 0
  name := "meadow"
  description := "a meadow"
  tags := ["surface"]
  edge_types := [EdgeType.wilderness, EdgeType.wilderness, EdgeType.wilderness,
    EdgeType.wilderness, EdgeType.wilderness, EdgeType.wilderness]

theorem validateAdjacency_edge_mismatch_iff_witness :
    ∃ res, validateAdjacency cfgW hexWA hexWB ⟨0, by omega⟩ = some res ∧
      ((∃ err ∈ res.errors, isEdgeMismatchErr err = true) ↔
        (hexWA.edge_types.getD 0 EdgeType.blocked ≠
            hexWB.edge_types.getD ((0 + 3) % 6) EdgeType.blocked ∧
          (hexWA.edge_types.getD 0 EdgeType.blocked ∈ MATCHING_EDGES ∨
            hexWB.edge_types.getD ((0 + 3) % 6) EdgeType.blocked ∈
              MATCHING_EDGES))) :=
  validateAdjacency_edge_mismatch_iff cfgW hexWA hexWB ⟨0, by omega⟩
    (by decide) (by decide)

/-- Founding context forbidding the tag `wild`, preferring `military`. -/
def ctxW : FoundingContext where
  season := "spring"
  bias_tags := ["military"]
  bias_against := ["wild"]

/-- A hex tagged `wild` (violating `ctxW`). -/
def hexWC : TaggedHex where
  q := 0
  r := 0
  name := "thicket"
  description := "a wild thicket"
  tags := ["wild"]
  edge_types := [EdgeType.wilderness, EdgeType.wilderness, EdgeType.wilderness,
    EdgeType.wilderness, EdgeType.wilderness, EdgeType.wilderness]

theorem validateFoundingConstraints_spec_witness :
    ((validateFoundingConstraints hexWC (some ctxW)).valid = false ∧
      (validateFoundingConstraints hexWC (some ctxW)).errors =
        [AdjError.foundingViolation
          (hexWC.tags.toFinset ∩ ctxW.bias_against.toFinset)
          ctxW.bias_against]) ∧
    ((validateFoundingConstraints hexWB (some ctxW)).valid = true ∧
      (validateFoundingConstraints hexWB (some ctxW)).errors = [] ∧
      (validateFoundingConstraints hexWB (some ctxW)).warnings =
        [AdjWarning.foundingSuggestion ctxW.bias_tags]) :=
  ⟨(validateFoundingConstraints_spec hexWC).1 ctxW (by decide),
    (validateFoundingConstraints_spec hexWB).2.1 ctxW (by decide) (by decide)
      (by decide)⟩

/-! ## assembly/layout_solver.py — `LayoutSolver` -/

/-- `AssembledCluster` from `schemas/template.py`; only the fields read by
the layout solver are modelled (`components`, `layout`, etc. are unused). -/
structure AssembledCluster where
  template_id : String
  instance_id : String
  footprint : List (Int × Int) := []
deriving DecidableEq, Repr

/-- `LayoutHint` from `schemas/seed.py`. -/
structure LayoutHint where
  cluster_id : String
  hints : List String := []
deriving DecidableEq, Repr

/-- A seeded random source for `rng.randint` draws: an explicit stream of
integers and a position in it. `rng.randint(-R, R)` is modelled as taking
the next stream value (its `[-R, R]` range is never needed). -/
structure RandIntSrc where
  stream : Nat → Int
  idx : Nat

/-- One `rng.randint` draw. -/
def randInt (rs : RandIntSrc) : Int × RandIntSrc :=
  (rs.stream rs.idx, ⟨rs.stream, rs.idx + 1⟩)

/-- `LayoutSolver.max_attempts`. -/
def layoutMaxAttempts : Nat := 1000

/-- `LayoutSolver._is_valid_position`. -/
def isValidPosition (cluster : AssembledCluster) (position : Int × Int)
    (placed : Finset (Int × Int)) (world_radius : Nat) : Bool :=
  cluster.footprint.all (fun offset =>
    let world_q := position.1 + offset.1
    let world_r := position.2 + offset.2
    decide (world_q.natAbs + world_r.natAbs ≤ world_radius) &&
      decide ((world_q, world_r) ∉ placed))

/-- The translated absolute cells of a placed cluster footprint. -/
def translateFootprint (cluster : AssembledCluster) (position : Int × Int) :
    List (Int × Int) :=
  cluster.footprint.map (fun offset =>
    (position.1 + offset.1, position.2 + offset.2))

/-- The attempt loop of `LayoutSolver._find_valid_position`
(`for _ in range(self.max_attempts)`). -/
def findValidPositionAux (cluster : AssembledCluster)
    (placed : Finset (Int × Int)) (world_radius : Nat) :
    Nat → RandIntSrc → Option (Int × Int) × RandIntSrc
  | 0, rs => (none, rs)
  | n + 1, rs =>
      let (q, rs1) := randInt rs
      let (r, rs2) := randInt rs1
      if (q + r).natAbs ≤ world_radius then
        if isValidPosition cluster (q, r) placed world_radius then
          (some (q, r), rs2)
        else findValidPositionAux cluster placed world_radius n rs2
      else findValidPositionAux cluster placed world_radius n rs2

/-- `LayoutSolver._find_valid_position` (the `hint` parameter is accepted but
never read, exactly as in the source). -/
def findValidPosition (cluster : AssembledCluster) (hint : Option LayoutHint)
    (placed : Finset (Int × Int)) (world_radius : Nat) (rng : RandIntSrc) :
    Option (Int × Int) × RandIntSrc :=
  findValidPositionAux cluster placed world_radius layoutMaxAttempts rng

/-- The per-cluster loop of `LayoutSolver.solve`; `none` models the
`ValueError("Could not place cluster ...")` raise. -/
def solveAux (hints : List LayoutHint) (world_radius : Nat) :
    List (String × AssembledCluster) → Finset (Int × Int) → RandIntSrc →
    Option (List (String × (Int × Int)) × RandIntSrc)
  | [], _, rs => some ([], rs)
  | (instance_id, cluster) :: rest, placed, rs =>
      let hint := hints.find? (fun h => h.cluster_id = instance_id)
      match findValidPosition cluster hint placed world_radius rs with
      | (none, _) => none
      | (some position, rs1) =>
          let placed1 := placed ∪ (translateFootprint cluster position).toFinset
          match solveAux hints world_radius rest placed1 rs1 with
          | none => none
          | some (ps, rs2) => some ((instance_id, position) :: ps, rs2)

/-- `LayoutSolver.solve(clusters, hints, world_radius, rng)`; the `clusters`
dict is modelled as an association list in its (insertion-order) iteration
order. -/
def solve (clusters : List (String × AssembledCluster))
    (hints : List LayoutHint) (world_radius : Nat) (rng : RandIntSrc) :
    Option (List (String × (Int × Int)) × RandIntSrc) :=
  solveAux hints world_radius clusters ∅ rng

theorem findValidPositionAux_valid (cluster : AssembledCluster)
    (placed : Finset (Int × Int)) (world_radius : Nat) :
    ∀ fuel rs pos rs1,
      findValidPositionAux cluster placed world_radius fuel rs = (some pos, rs1) →
      isValidPosition cluster pos placed world_radius = true := by
  intro fuel
  induction fuel with
  | zero => intro rs pos rs1 h; simp [findValidPositionAux] at h
  | succ n ih =>
      intro rs pos rs1 h
      simp only [findValidPositionAux] at h
      split at h
      · split at h
        · simp at h
          obtain ⟨h1, -⟩ := h
          subst h1
          assumption
        · exact ih _ _ _ h
      · exact ih _ _ _ h

theorem isValidPosition_spec {cluster : AssembledCluster}
    {position : Int × Int} {placed : Finset (Int × Int)} {world_radius : Nat}
    (h : isValidPosition cluster position placed world_radius = true) :
    ∀ cell ∈ translateFootprint cluster position,
      cell.1.natAbs + cell.2.natAbs ≤ world_radius ∧ cell ∉ placed := by
  intro cell hcell
  rw [translateFootprint, List.mem_map] at hcell
  obtain ⟨offset, hoff, rfl⟩ := hcell
  rw [isValidPosition, List.all_eq_true] at h
  have := h offset hoff
  simp at this
  exact this

/-- Disambiguates aligned association-list memberships under distinct keys. -/
theorem align_cases {β γ : Type} {id id0 : String} {c c0 : β} {p p0 : γ}
    {rest : List (String × β)} {ps2 : List (String × γ)}
    (hfst : ps2.map Prod.fst = rest.map Prod.fst)
    (hnd : id0 ∉ rest.map Prod.fst)
    (hc : (id, c) ∈ (id0, c0) :: rest) (hp : (id, p) ∈ (id0, p0) :: ps2) :
    (id = id0 ∧ c = c0 ∧ p = p0) ∨ ((id, c) ∈ rest ∧ (id, p) ∈ ps2) := by
  rcases List.mem_cons.1 hc with hc1 | hc1 <;>
    rcases List.mem_cons.1 hp with hp1 | hp1
  · obtain ⟨rfl, rfl⟩ := Prod.mk.injEq .. ▸ hc1
    obtain ⟨-, rfl⟩ := Prod.mk.injEq .. ▸ hp1
    exact Or.inl ⟨rfl, rfl, rfl⟩
  · obtain ⟨rfl, rfl⟩ := Prod.mk.injEq .. ▸ hc1
    exact absurd (hfst ▸ List.mem_map.2 ⟨(id, p), hp1, rfl⟩) hnd
  · obtain ⟨rfl, rfl⟩ := Prod.mk.injEq .. ▸ hp1
    exact absurd (List.mem_map.2 ⟨(id, c), hc1, rfl⟩) hnd
  · exact Or.inr ⟨hc1, hp1⟩

theorem solveAux_fst (hints : List LayoutHint) (world_radius : Nat) :
    ∀ (cs : List (String × AssembledCluster)) placed rs ps rs1,
      solveAux hints world_radius cs placed rs = some (ps, rs1) →
      ps.map Prod.fst = cs.map Prod.fst := by
  intro cs
  induction cs with
  | nil =>
      intro placed rs ps rs1 h
      simp [solveAux] at h
      simp [h.1]
  | cons hd rest ih =>
      obtain ⟨id0, c0⟩ := hd
      intro placed rs ps rs1 h
      simp only [solveAux] at h
      split at h
      · exact absurd h (by simp)
      · split at h
        · exact absurd h (by simp)
        · rename_i ps2 rs2 heq2
          simp only [Option.some.injEq, Prod.mk.injEq] at h
          obtain ⟨rfl, -⟩ := h
          simp [ih _ _ _ _ heq2]

theorem solveAux_cells_ok (hints : List LayoutHint) (world_radius : Nat) :
    ∀ (cs : List (String × AssembledCluster)) placed rs ps rs1,
      solveAux hints world_radius cs placed rs = some (ps, rs1) →
      (cs.map Prod.fst).Nodup →
      ∀ id c p, (id, c) ∈ cs → (id, p) ∈ ps →
        ∀ cell ∈ translateFootprint c p,
          cell.1.natAbs + cell.2.natAbs ≤ world_radius ∧ cell ∉ placed := by
  intro cs
  induction cs with
  | nil =>
      intro placed rs ps rs1 h hnd id c p hc
      simp at hc
  | cons hd rest ih =>
      obtain ⟨id0, c0⟩ := hd
      intro placed rs ps rs1 h hnd id c p hc hp cell hcell
      simp only [solveAux] at h
      split at h
      · exact absurd h (by simp)
      · rename_i pos0 rs2 heq1
        split at h
        · exact absurd h (by simp)
        · rename_i ps2 rs3 heq2
          simp only [Option.some.injEq, Prod.mk.injEq] at h
          obtain ⟨rfl, -⟩ := h
          rw [List.map_cons, List.nodup_cons] at hnd
          rcases align_cases (solveAux_fst hints world_radius _ _ _ _ _ heq2)
              hnd.1 hc hp with ⟨-, rfl, rfl⟩ | ⟨hc2, hp2⟩
          · exact isValidPosition_spec
              (findValidPositionAux_valid _ _ _ _ _ _ _ heq1) cell hcell
          · have := ih _ _ _ _ heq2 hnd.2 id c p hc2 hp2 cell hcell
            refine ⟨this.1, fun hmem => this.2 (Finset.mem_union_left _ hmem)⟩

theorem solveAux_disjoint (hints : List LayoutHint) (world_radius : Nat) :
    ∀ (cs : List (String × AssembledCluster)) placed rs ps rs1,
      solveAux hints world_radius cs placed rs = some (ps, rs1) →
      (cs.map Prod.fst).Nodup →
      ∀ id1 c1 p1 id2 c2 p2,
        (id1, c1) ∈ cs → (id2, c2) ∈ cs →
        (id1, p1) ∈ ps → (id2, p2) ∈ ps → id1 ≠ id2 →
        ∀ cell ∈ translateFootprint c1 p1, cell ∉ translateFootprint c2 p2 := by
  intro cs
  induction cs with
  | nil =>
      intro placed rs ps rs1 h hnd id1 c1 p1 id2 c2 p2 hc1
      simp at hc1
  | cons hd rest ih =>
      obtain ⟨id0, c0⟩ := hd
      intro placed rs ps rs1 h hnd id1 c1 p1 id2 c2 p2 hc1 hc2 hp1 hp2 hne
        cell hcell hcell2
      simp only [solveAux] at h
      split at h
      · exact absurd h (by simp)
      · rename_i pos0 rs2 heq1
        split at h
        · exact absurd h (by simp)
        · rename_i ps2 rs3 heq2
          simp only [Option.some.injEq, Prod.mk.injEq] at h
          obtain ⟨rfl, -⟩ := h
          rw [List.map_cons, List.nodup_cons] at hnd
          have hfst := solveAux_fst hints world_radius _ _ _ _ _ heq2
          rcases align_cases hfst hnd.1 hc1 hp1 with ⟨h1, rfl, rfl⟩ | ⟨hc1t, hp1t⟩
          · rcases align_cases hfst hnd.1 hc2 hp2 with ⟨h2, -, -⟩ | ⟨hc2t, hp2t⟩
            · exact hne (h1.trans h2.symm)
            · have := solveAux_cells_ok hints world_radius _ _ _ _ _ heq2 hnd.2
                id2 c2 p2 hc2t hp2t cell hcell2
              exact this.2 (Finset.mem_union_right _ (List.mem_toFinset.2 hcell))
          · rcases align_cases hfst hnd.1 hc2 hp2 with ⟨h2, rfl, rfl⟩ | ⟨hc2t, hp2t⟩
            · have := solveAux_cells_ok hints world_radius _ _ _ _ _ heq2 hnd.2
                id1 c1 p1 hc1t hp1t cell hcell
              exact this.2 (Finset.mem_union_right _ (List.mem_toFinset.2 hcell2))
            · exact ih _ _ _ _ heq2 hnd.2 id1 c1 p1 id2 c2 p2 hc1t hc2t
                hp1t hp2t hne cell hcell hcell2

/-- C2: when `LayoutSolver.solve` returns, it returns one position per
cluster (same instance ids, in order), every translated footprint cell is
inside the diamond bound `|q| + |r| ≤ world_radius`, and footprints of
distinct clusters are pairwise disjoint. -/
theorem solve_spec (clusters : List (String × AssembledCluster))
    (hints : List LayoutHint) (world_radius : Nat) (rng : RandIntSrc)
    (positions : List (String × (Int × Int))) (rs1 : RandIntSrc)
    (hnd : (clusters.map Prod.fst).Nodup)
    (hsol : solve clusters hints world_radius rng = some (positions, rs1)) :
    positions.map Prod.fst = clusters.map Prod.fst ∧
    (∀ id c p, (id, c) ∈ clusters → (id, p) ∈ positions →
      ∀ cell ∈ translateFootprint c p,
        cell.1.natAbs + cell.2.natAbs ≤ world_radius) ∧
    (∀ id1 c1 p1 id2 c2 p2,
      (id1, c1) ∈ clusters → (id2, c2) ∈ clusters →
      (id1, p1) ∈ positions → (id2, p2) ∈ positions → id1 ≠ id2 →
      ∀ cell ∈ translateFootprint c1 p1, cell ∉ translateFootprint c2 p2) :=
  ⟨solveAux_fst hints world_radius clusters ∅ rng positions rs1 hsol,
   fun id c p hc hp cell hcell =>
     (solveAux_cells_ok hints world_radius clusters ∅ rng positions rs1 hsol
       hnd id c p hc hp cell hcell).1,
   solveAux_disjoint hints world_radius clusters ∅ rng positions rs1 hsol hnd⟩

/-- C6: the layout solver is a pure function of the cluster list (in its
iteration order), the hints, the radius and the random-source state:
invocations from identical random-source states return identical
instance-to-position mappings. -/
theorem solve_deterministic (clusters : List (String × AssembledCluster))
    (hints : List LayoutHint) (world_radius : Nat) (rng1 rng2 : RandIntSrc)
    (h : rng1 = rng2) :
    solve clusters hints world_radius rng1 =
      solve clusters hints world_radius rng2 := by
  rw [h]

/-! Concrete inputs for the layout-solver witnesses. -/

/-- Witness draw stream: `0, 0, 1, 1, ...`. -/
def streamW : Nat → Int := fun n => if n < 2 then 0 else 1

/-- A single-cell cluster to place. -/
def clusterKeep : AssembledCluster :=
  { template_id := "keep", instance_id := "keep_1", footprint := [(0, 0)] }

/-- Another single-cell cluster to place. -/
def clusterMine : AssembledCluster :=
  { template_id := "mine", instance_id := "mine_1", footprint := [(0, 0)] }

/-- Two single-cell clusters to place. -/
def clustersW : List (String × AssembledCluster) :=
  [("keep_1", clusterKeep), ("mine_1", clusterMine)]

theorem solve_spec_witness :
    ([("keep_1", ((0 : Int), (0 : Int))), ("mine_1", (1, 1))].map Prod.fst =
        clustersW.map Prod.fst) ∧
    (∀ id c p, (id, c) ∈ clustersW →
      (id, p) ∈ [("keep_1", ((0 : Int), (0 : Int))), ("mine_1", (1, 1))] →
      ∀ cell ∈ translateFootprint c p,
        cell.1.natAbs + cell.2.natAbs ≤ 2) ∧
    (∀ id1 c1 p1 id2 c2 p2,
      (id1, c1) ∈ clustersW → (id2, c2) ∈ clustersW →
      (id1, p1) ∈ [("keep_1", ((0 : Int), (0 : Int))), ("mine_1", (1, 1))] →
      (id2, p2) ∈ [("keep_1", ((0 : Int), (0 : Int))), ("mine_1", (1, 1))] →
      id1 ≠ id2 →
      ∀ cell ∈ translateFootprint c1 p1, cell ∉ translateFootprint c2 p2) :=
  solve_spec clustersW [] 2 ⟨streamW, 0⟩
    [("keep_1", (0, 0)), ("mine_1", (1, 1))] ⟨streamW, 4⟩
    (by simp [clustersW]) rfl

theorem solve_deterministic_witness :
    solve clustersW [] 2 ⟨streamW, 0⟩ = solve clustersW [] 2 ⟨streamW, 0⟩ :=
  solve_deterministic clustersW [] 2 ⟨streamW, 0⟩ ⟨streamW, 0⟩ rfl

/-! ## connector_generator.py — `_straight_line_path` (greedy fallback) -/

/-- One iteration of the inner `for edge in range(6)` loop of
`_straight_line_path`: keep the strictly closer neighbor
(`best_dist` is carried alongside `best_neighbor`; `None` models the
initial `float('inf')` state). -/
def stepBest (current target : Int × Int)
    (best : Option ((Int × Int) × Nat)) (edge : Fin 6) :
    Option ((Int × Int) × Nat) :=
  let n := getNeighbor current.1 current.2 edge
  let d := distance n.1 n.2 target.1 target.2
  match best with
  | none => some (n, d)
  | some (bn, bd) => if d < bd then some (n, d) else some (bn, bd)

/-- The full `for edge in range(6)` scan for the best neighbor. -/
def straightStepState (current target : Int × Int) :
    Option ((Int × Int) × Nat) :=
  (List.finRange 6).foldl (stepBest current target) none

/-- The `best_neighbor` produced by one iteration of the while loop. -/
def bestNeighbor (current target : Int × Int) : Option (Int × Int) :=
  (straightStepState current target).map (·.1)

theorem foldl_stepBest_isSome (c t : Int × Int) :
    ∀ (l : List (Fin 6)) (acc : Option ((Int × Int) × Nat)),
      acc.isSome → (l.foldl (stepBest c t) acc).isSome := by
  intro l
  induction l with
  | nil => intro acc h; simpa using h
  | cons e rest ih =>
      intro acc h
      rw [List.foldl_cons]
      refine ih _ ?_
      obtain ⟨⟨bn, bd⟩, rfl⟩ := Option.isSome_iff_exists.1 h
      by_cases hd : distance (getNeighbor c.1 c.2 e).1 (getNeighbor c.1 c.2 e).2
          t.1 t.2 < bd <;> simp [stepBest, hd]

theorem foldl_stepBest_le (c t : Int × Int) :
    ∀ (l : List (Fin 6)) (acc : Option ((Int × Int) × Nat)) (bn : Int × Int)
      (bd : Nat), l.foldl (stepBest c t) acc = some (bn, bd) →
      (∀ e ∈ l, bd ≤ distance (getNeighbor c.1 c.2 e).1
        (getNeighbor c.1 c.2 e).2 t.1 t.2) ∧
      (∀ an ad, acc = some (an, ad) → bd ≤ ad) := by
  intro l
  induction l with
  | nil =>
      intro acc bn bd h
      simp at h
      exact ⟨by simp, fun an ad hacc => by rw [hacc] at h; simp at h; omega⟩
  | cons e rest ih =>
      intro acc bn bd h
      rw [List.foldl_cons] at h
      obtain ⟨hrest, hacc⟩ := ih _ _ _ h
      constructor
      · intro e1 he1
        rcases List.mem_cons.1 he1 with rfl | he1
        · cases acc with
          | none =>
              exact hacc (getNeighbor c.1 c.2 e1)
                (distance (getNeighbor c.1 c.2 e1).1
                  (getNeighbor c.1 c.2 e1).2 t.1 t.2) rfl
          | some p =>
              obtain ⟨an, ad⟩ := p
              by_cases hd : distance (getNeighbor c.1 c.2 e1).1
                  (getNeighbor c.1 c.2 e1).2 t.1 t.2 < ad
              · exact hacc (getNeighbor c.1 c.2 e1)
                  (distance (getNeighbor c.1 c.2 e1).1
                    (getNeighbor c.1 c.2 e1).2 t.1 t.2) (by simp [stepBest, hd])
              · have := hacc an ad (by simp [stepBest, hd])
                omega
        · exact hrest e1 he1
      · intro an ad hacc2
        subst hacc2
        by_cases hd : distance (getNeighbor c.1 c.2 e).1
            (getNeighbor c.1 c.2 e).2 t.1 t.2 < ad
        · have := hacc (getNeighbor c.1 c.2 e)
            (distance (getNeighbor c.1 c.2 e).1
              (getNeighbor c.1 c.2 e).2 t.1 t.2) (by simp [stepBest, hd])
          omega
        · exact hacc an ad (by simp [stepBest, hd])

theorem foldl_stepBest_sound (c t : Int × Int) :
    ∀ (l : List (Fin 6)) (acc : Option ((Int × Int) × Nat)),
      (∀ bn bd, acc = some (bn, bd) →
        bd = distance bn.1 bn.2 t.1 t.2 ∧ ∃ e : Fin 6, bn = getNeighbor c.1 c.2 e) →
      ∀ bn bd, l.foldl (stepBest c t) acc = some (bn, bd) →
        bd = distance bn.1 bn.2 t.1 t.2 ∧
          ∃ e : Fin 6, bn = getNeighbor c.1 c.2 e := by
  intro l
  induction l with
  | nil => intro acc hacc bn bd h; exact hacc bn bd (by simpa using h)
  | cons e rest ih =>
      intro acc hacc bn bd h
      rw [List.foldl_cons] at h
      refine ih _ ?_ bn bd h
      intro bn1 bd1 hstep
      cases acc with
      | none =>
          simp [stepBest] at hstep
          obtain ⟨h1, h2⟩ := hstep
          subst h1
          subst h2
          exact ⟨rfl, e, rfl⟩
      | some p =>
          obtain ⟨an, ad⟩ := p
          by_cases hd : distance (getNeighbor c.1 c.2 e).1
              (getNeighbor c.1 c.2 e).2 t.1 t.2 < ad
          · simp [stepBest, hd] at hstep
            obtain ⟨h1, h2⟩ := hstep
            subst h1
            subst h2
            exact ⟨rfl, e, rfl⟩
          · simp [stepBest, hd] at hstep
            exact hacc bn1 bd1 (by simp [hstep.1, hstep.2])

theorem distance_eq_zero_iff (q1 r1 q2 r2 : Int) :
    distance q1 r1 q2 r2 = 0 ↔ q1 = q2 ∧ r1 = r2 := by
  simp only [distance]
  omega

/-- When not yet at the target, some hex neighbor is strictly closer. -/
theorem exists_neighbor_closer (c t : Int × Int) (h : c ≠ t) :
    ∃ e : Fin 6, distance (getNeighbor c.1 c.2 e).1 (getNeighbor c.1 c.2 e).2
      t.1 t.2 < distance c.1 c.2 t.1 t.2 := by
  obtain ⟨cq, cr⟩ := c
  obtain ⟨tq, tr⟩ := t
  have hne : ¬(cq = tq ∧ cr = tr) := by
    intro hcontra
    exact h (by simp [hcontra.1, hcontra.2])
  by_cases ha : tq - cq > 0
  · by_cases hb : tr - cr < 0
    · refine ⟨⟨1, by omega⟩, ?_⟩
      show distance (cq + 1) (cr + (-1)) tq tr < distance cq cr tq tr
      simp only [distance]; omega
    · refine ⟨⟨0, by omega⟩, ?_⟩
      show distance (cq + 1) (cr + 0) tq tr < distance cq cr tq tr
      simp only [distance]; omega
  · by_cases ha2 : tq - cq < 0
    · by_cases hb : tr - cr > 0
      · refine ⟨⟨4, by omega⟩, ?_⟩
        show distance (cq + (-1)) (cr + 1) tq tr < distance cq cr tq tr
        simp only [distance]; omega
      · refine ⟨⟨3, by omega⟩, ?_⟩
        show distance (cq + (-1)) (cr + 0) tq tr < distance cq cr tq tr
        simp only [distance]; omega
    · by_cases hb : tr - cr > 0
      · refine ⟨⟨5, by omega⟩, ?_⟩
        show distance (cq + 0) (cr + 1) tq tr < distance cq cr tq tr
        simp only [distance]; omega
      · refine ⟨⟨2, by omega⟩, ?_⟩
        show distance (cq + 0) (cr + (-1)) tq tr < distance cq cr tq tr
        simp only [distance]; omega

/-- The selected best neighbor exists, is a hex neighbor, and is strictly
closer to the target than `current` whenever `current ≠ target`. -/
theorem bestNeighbor_spec (c t : Int × Int) (h : c ≠ t) :
    ∃ b, bestNeighbor c t = some b ∧
      distance b.1 b.2 t.1 t.2 < distance c.1 c.2 t.1 t.2 ∧
      ∃ e : Fin 6, b = getNeighbor c.1 c.2 e := by
  have hsome : (straightStepState c t).isSome := by
    rw [straightStepState, show List.finRange 6 =
      [(0 : Fin 6), 1, 2, 3, 4, 5] from by decide, List.foldl_cons]
    exact foldl_stepBest_isSome c t _ _ (by simp [stepBest])
  obtain ⟨⟨bn, bd⟩, hfold⟩ := Option.isSome_iff_exists.1 hsome
  obtain ⟨hbd, he⟩ := foldl_stepBest_sound c t _ _ (by simp) bn bd hfold
  obtain ⟨hle, -⟩ := foldl_stepBest_le c t _ _ bn bd hfold
  obtain ⟨e0, he0⟩ := exists_neighbor_closer c t h
  refine ⟨bn, by simp [bestNeighbor, hfold], ?_, he⟩
  calc distance bn.1 bn.2 t.1 t.2 = bd := hbd.symm
    _ ≤ _ := hle e0 (List.mem_finRange e0)
    _ < _ := he0

/-- The while loop of `_straight_line_path`, returning the hexes appended
after `start`. The `best_neighbor is None or best_neighbor == current`
break guard is kept although neither disjunct is ever true. -/
def straightLinePathAux (current target : Int × Int) : List (Int × Int) :=
  if h : current = target then []
  else
    match hbn : bestNeighbor current target with
    | none => []
    | some b =>
        if hb : b = current then []
        else b :: straightLinePathAux b target
termination_by distance current.1 current.2 target.1 target.2
decreasing_by
  obtain ⟨b1, hb1, hlt, -⟩ := bestNeighbor_spec current target h
  rw [hbn] at hb1
  cases hb1
  exact hlt

/-- `ConnectorGenerator._straight_line_path(start, end)`. -/
def straightLinePath (start target : Int × Int) : List (Int × Int) :=
  start :: straightLinePathAux start target

theorem straightLinePathAux_spec :
    ∀ (n : Nat) (c t : Int × Int), distance c.1 c.2 t.1 t.2 ≤ n →
      ((c :: straightLinePathAux c t).getLast? = some t ∧
       List.Chain' (fun x y => ∃ e : Fin 6, y = getNeighbor x.1 x.2 e)
         (c :: straightLinePathAux c t) ∧
       List.Chain' (fun x y =>
         distance y.1 y.2 t.1 t.2 < distance x.1 x.2 t.1 t.2)
         (c :: straightLinePathAux c t)) := by
  intro n
  induction n with
  | zero =>
      intro c t hd
      have hct : c = t := by
        have := (distance_eq_zero_iff c.1 c.2 t.1 t.2).1 (by omega)
        exact Prod.ext_iff.2 this
      subst hct
      rw [straightLinePathAux, dif_pos rfl]
      simp
  | succ n ih =>
      intro c t hd
      by_cases hct : c = t
      · subst hct
        rw [straightLinePathAux, dif_pos rfl]
        simp
      · obtain ⟨b, hb, hlt, e, he⟩ := bestNeighbor_spec c t hct
        have hbnec : b ≠ c := by
          intro hcontra
          rw [hcontra] at hlt
          omega
        have hexp : straightLinePathAux c t = b :: straightLinePathAux b t := by
          rw [straightLinePathAux, dif_neg hct]
          split
          · rename_i heq
            rw [heq] at hb
            cases hb
          · rename_i b1 heq
            rw [heq] at hb
            cases hb
            rw [dif_neg hbnec]
        obtain ⟨ihlast, ihchain, ihdist⟩ := ih b t (by omega)
        rw [hexp]
        refine ⟨?_, ?_, ?_⟩
        · rw [List.getLast?_cons_cons]
          exact ihlast
        · exact List.Chain'.cons ⟨e, he⟩ ihchain
        · exact List.Chain'.cons hlt ihdist

/-- C7: the greedy straight-line fallback walk (the path returned by
`_find_elastic_path` when the A* open set empties before reaching the goal)
always terminates — it is a total function — and returns a path that starts
at `start`, ends at `target`, moves along hex-neighbor edges, and strictly
decreases the hex distance to `target` at every step. -/
theorem straightLinePath_spec (start target : Int × Int) :
    (straightLinePath start target).head? = some start ∧
    (straightLinePath start target).getLast? = some target ∧
    List.Chain' (fun x y => ∃ e : Fin 6, y = getNeighbor x.1 x.2 e)
      (straightLinePath start target) ∧
    List.Chain' (fun x y =>
      distance y.1 y.2 target.1 target.2 < distance x.1 x.2 target.1 target.2)
      (straightLinePath start target) := by
  obtain ⟨hlast, hchain, hdist⟩ :=
    straightLinePathAux_spec (distance start.1 start.2 target.1 target.2)
      start target le_rfl
  exact ⟨rfl, hlast, hchain, hdist⟩

/-! ## connector_generator.py — `_generate_anchor_slots` -/

/-- `ConnectorType` enum from `schemas/connector.py`. -/
inductive ConnectorType where
  | river_headwaters | river_upper | river_middle | river_lower | river_delta
  | river_full | lake_shore | coastline
  | mountain_range_major | mountain_range_minor | mountain_spur | highland
  | forest_band_dense | forest_band_light | ancient_forest | forest_edge
  | trade_route_major | trade_route_minor | military_road | pilgrim_path
  | mountain_pass
  | plains_band | marsh_system | desert_edge | tundra_band
deriving DecidableEq, Repr

/-- `ConnectorHex` from `schemas/connector.py` (`resources`, `features`,
`is_slot` omitted; floats as `ℚ`). -/
structure ConnectorHex where
  index : Int
  terrain : Terrain
  elevation : ℚ
  moisture : ℚ
  temperature : ℚ := 15
  species_fitness : SpeciesFitness
  connects_to : List Int := []
  is_entry_point : Bool := false
deriving DecidableEq, Repr

/-- `MinorAnchorSlot` from `schemas/connector.py`. -/
structure MinorAnchorSlot where
  slot_id : String
  hex_index : Nat
  compatible_categories : List String := []
  required : Bool := false
  narrative_context : String := ""
deriving DecidableEq, Repr

/-- Python `range(start, stop, step)` for a positive step. -/
def pyRangeStep (start stop step : Nat) : List Nat :=
  if step = 0 then []
  else (List.range ((stop - start + step - 1) / step)).map
    (fun i => start + i * step)

/-- `ConnectorGenerator._get_anchor_interval`. -/
def getAnchorInterval (connector_type : ConnectorType) : Nat :=
  match connector_type with
  | ConnectorType.trade_route_major => 8
  | ConnectorType.trade_route_minor => 12
  | ConnectorType.military_road => 10
  | ConnectorType.pilgrim_path => 6
  | _ => 10

/-- `ConnectorGenerator._get_compatible_anchors`. -/
def getCompatibleAnchors (connector_type : ConnectorType)
    (chex : ConnectorHex) : List String :=
  let base := ["camp", "shrine"]
  if connector_type = ConnectorType.trade_route_major ∨
      connector_type = ConnectorType.trade_route_minor then
    base ++ ["inn", "tavern", "market_small", "caravanserai"]
  else if connector_type = ConnectorType.military_road then
    base ++ ["watchtower", "signal_tower", "border_post"]
  else if connector_type = ConnectorType.pilgrim_path then
    base ++ ["shrine", "temple_small", "sacred_spring"]
  else base

/-- The `slot_start` endpoint slot. -/
def connectorStartSlot : MinorAnchorSlot where
  slot_id := "slot_start"
  hex_index := 0
  compatible_categories := ["waystation", "toll_gate", "border_post"]
  required := false
  narrative_context := "Connector entrance"

/-- The `slot_end` endpoint slot. -/
def connectorEndSlot (last_index : Nat) : MinorAnchorSlot where
  slot_id := "slot_end"
  hex_index := last_index
  compatible_categories := ["waystation", "toll_gate", "border_post"]
  required := false
  narrative_context := "Connector terminus"

/-- An interval-based `slot_{i}` slot. -/
def intervalSlot (i : Nat) (compatible : List String) : MinorAnchorSlot where
  slot_id := "slot_" ++ toString i
  hex_index := i
  compatible_categories := compatible
  required := false
  narrative_context := "Regular stopping point"

/-- A river-crossing `slot_crossing_{i}` slot — the only `required=True`
slot kind. -/
def crossingSlot (i : Nat) : MinorAnchorSlot where
  slot_id := "slot_crossing_" ++ toString i
  hex_index := i
  compatible_categories := ["bridge_wood", "bridge_stone", "ford_improved",
    "ferry"]
  required := true
  narrative_context := "River crossing"

/-- An elevation-change `slot_pass_{i}` slot. -/
def passSlot (i : Nat) : MinorAnchorSlot where
  slot_id := "slot_pass_" ++ toString i
  hex_index := i
  compatible_categories := ["watchtower", "shrine", "camp"]
  required := false
  narrative_context := "Mountain pass or significant elevation"

/-- `ConnectorGenerator._generate_anchor_slots(hexes, connector_type)`.
The list accesses `hexes[i]` / `hexes[i-1]` are modelled with `get?`; every
accessed index is in range by construction of the index lists. -/
def generateAnchorSlots (hexes : List ConnectorHex)
    (connector_type : ConnectorType) : List MinorAnchorSlot :=
  if hexes.isEmpty then []
  else
    let interval := getAnchorInterval connector_type
    let intervalSlots : List MinorAnchorSlot :=
      (pyRangeStep interval (hexes.length - 1) interval).filterMap (fun i =>
        match hexes.get? i with
        | some chex =>
            some (intervalSlot i (getCompatibleAnchors connector_type chex))
        | none => none)
    let featureSlots : List MinorAnchorSlot :=
      hexes.enum.flatMap (fun p =>
        if p.1 = 0 ∨ p.1 = hexes.length - 1 then []
        else
          (if p.2.terrain = Terrain.shallow_water then [crossingSlot p.1]
           else []) ++
          (if 0 < p.1 then
            match hexes.get? (p.1 - 1) with
            | some prev =>
                if |p.2.elevation - prev.elevation| > 100 then [passSlot p.1]
                else []
            | none => []
          else []))
    [connectorStartSlot, connectorEndSlot (hexes.length - 1)] ++
      intervalSlots ++ featureSlots

/-- A single shallow-water connector hex (e.g. a one-hex river). -/
def riverHexW : ConnectorHex where
  index := 0
  terrain := Terrain.shallow_water
  elevation := 350
  moisture := 9 / 10
  temperature := 15
  connects_to := []
  is_entry_point := true
  species_fitness := { human := 1 / 2, dwarf := 1 / 2, elf := 1 / 2 }

/-- C9 counterexample: on a one-hex connector whose only hex is shallow
water, `_generate_anchor_slots` produces no `required=True` slot at that
hex's index (the feature loop skips both endpoints), refuting "a required
slot at the index of every shallow-water hex". -/
theorem generateAnchorSlots_endpoint_counterexample :
    riverHexW.terrain = Terrain.shallow_water ∧
    ∀ s ∈ generateAnchorSlots [riverHexW] ConnectorType.river_middle,
      ¬(s.hex_index = 0 ∧ s.required = true) := by
  constructor
  · rfl
  · intro s hs
    have heq : generateAnchorSlots [riverHexW] ConnectorType.river_middle =
        [connectorStartSlot, connectorEndSlot 0] := by rfl
    rw [heq] at hs
    simp only [List.mem_cons, List.not_mem_nil, or_false] at hs
    rcases hs with rfl | rfl <;>
      simp [connectorStartSlot, connectorEndSlot]

/-- C9 (amended): for a non-empty connector hex list, the slots include one
at hex index 0 and one at the last hex index, and a `required=True` slot at
the index of every interior (non-endpoint) hex whose terrain is shallow
water. (The feature loop skips indices 0 and `len - 1`.) -/
theorem generateAnchorSlots_spec (hexes : List ConnectorHex)
    (connector_type : ConnectorType) (hne : hexes ≠ []) :
    (∃ s ∈ generateAnchorSlots hexes connector_type, s.hex_index = 0) ∧
    (∃ s ∈ generateAnchorSlots hexes connector_type,
      s.hex_index = hexes.length - 1) ∧
    (∀ i chex, hexes.get? i = some chex → 0 < i → i < hexes.length - 1 →
      chex.terrain = Terrain.shallow_water →
      ∃ s ∈ generateAnchorSlots hexes connector_type,
        s.hex_index = i ∧ s.required = true) := by
  have hemp : hexes.isEmpty = false := by
    cases hexes with
    | nil => exact absurd rfl hne
    | cons a l => rfl
  refine ⟨?_, ?_, ?_⟩
  · refine ⟨connectorStartSlot, ?_, rfl⟩
    rw [generateAnchorSlots, hemp]
    simp
  · refine ⟨connectorEndSlot (hexes.length - 1), ?_, rfl⟩
    rw [generateAnchorSlots, hemp]
    simp [connectorEndSlot]
  · intro i chex hget hpos hlast hterrain
    refine ⟨crossingSlot i, ?_, rfl, rfl⟩
    rw [generateAnchorSlots, hemp]
    simp only [Bool.false_eq_true, if_false]
    refine List.mem_append_right _ ?_
    rw [List.mem_flatMap]
    refine ⟨(i, chex), List.mk_mem_enum_iff_get?.2 hget, ?_⟩
    have hi0 : ¬(i = 0 ∨ i = hexes.length - 1) := by omega
    rw [if_neg hi0]
    refine List.mem_append_left _ ?_
    rw [if_pos hterrain]
    exact List.mem_singleton.2 rfl

/-- A plains connector hex at elevation 200. -/
def plainsHexW (i : Int) : ConnectorHex where
  index := i
  terrain := Terrain.plains
  elevation := 200
  moisture := 1 / 2
  temperature := 15
  species_fitness := { human := 1 / 2, dwarf := 1 / 2, elf := 1 / 2 }

/-- A shallow-water connector hex at elevation 200. -/
def fordHexW (i : Int) : ConnectorHex where
  index := i
  terrain := Terrain.shallow_water
  elevation := 200
  moisture := 9 / 10
  temperature := 15
  species_fitness := { human := 1 / 2, dwarf := 1 / 2, elf := 1 / 2 }

/-- A three-hex connector with a shallow-water middle hex. -/
def hexesW3 : List ConnectorHex :=
  [plainsHexW 0, fordHexW 1, plainsHexW 2]

theorem generateAnchorSlots_spec_witness :
    (∃ s ∈ generateAnchorSlots hexesW3 ConnectorType.trade_route_major,
      s.hex_index = 0) ∧
    (∃ s ∈ generateAnchorSlots hexesW3 ConnectorType.trade_route_major,
      s.hex_index = hexesW3.length - 1) ∧
    (∀ i chex, hexesW3.get? i = some chex → 0 < i → i < hexesW3.length - 1 →
      chex.terrain = Terrain.shallow_water →
      ∃ s ∈ generateAnchorSlots hexesW3 ConnectorType.trade_route_major,
        s.hex_index = i ∧ s.required = true) :=
  generateAnchorSlots_spec hexesW3 ConnectorType.trade_route_major
    (by simp [hexesW3])

/-! ## filler_generator.py — `FillerGenerator` -/

/-- A seeded random source for `random.random()` draws: an explicit stream
of rationals (each in `[0, 1)` for a real PRNG) and a position in it. -/
structure RandFloatSrc where
  stream : Nat → ℚ
  idx : Nat

/-- One `random.random()` draw. -/
def randFloat (rs : RandFloatSrc) : ℚ × RandFloatSrc :=
  (rs.stream rs.idx, ⟨rs.stream, rs.idx + 1⟩)

/-- The filler-relevant part of the `hex_tags.toml` configuration:
the TERRAIN tag universe, the terrain→compatible-terrains transition table
(`tag in self.transitions` / `self.transitions[tag]`), the transition
weights (`self.weights[f"a.b"]`, modelled curried), and `max_iterations`
(default 10000). -/
structure FillerConfig where
  all_terrain_tags : Finset String
  transitions : String → Option (List String)
  weights : String → String → Option ℚ
  max_iterations : Nat := 10000

/-- `WaveCell` dataclass. -/
structure WaveCell where
  possible_tags : Finset String
  collapsed : Bool := false
  chosen_tag : Option String := none
deriving DecidableEq

/-- `FillerGenerator._extract_terrain_tag` (its `.get(..., "surface")`
default makes it total). -/
def extractTerrainTag (hex : WorldHex) : String :=
  match hex.terrain with
  | Terrain.underground => "underground"
  | Terrain.cavern => "underground"
  | Terrain.deep_water => "underwater"
  | Terrain.shallow_water => "surface"
  | Terrain.plains => "surface"
  | Terrain.hills => "surface"
  | Terrain.forest => "surface"
  | Terrain.dense_forest => "surface"
  | Terrain.mountains => "surface"
  | Terrain.high_mountains => "elevated"
  | Terrain.marsh => "surface"
  | Terrain.desert => "surface"
  | Terrain.tundra => "surface"
  | Terrain.volcanic => "surface"
  | Terrain.glacier => "surface"

/-- The `tag_to_terrain` table of `_create_filler_hex`. -/
def tagToTerrain (tag : String) : Terrain :=
  match tag with
  | "surface" => Terrain.plains
  | "underground" => Terrain.underground
  | "underwater" => Terrain.deep_water
  | "aerial" => Terrain.high_mountains
  | "elevated" => Terrain.hills
  | "peak" => Terrain.high_mountains
  | _ => Terrain.plains

/-- `FillerGenerator._create_filler_hex(q, r, terrain_tag)`. -/
def createFillerHex (q r : Int) (terrain_tag : String) (rs : RandFloatSrc) :
    WorldHex × RandFloatSrc :=
  let terrain := tagToTerrain terrain_tag
  let (r1, rs1) := randFloat rs
  let elevation : ℚ :=
    if terrain_tag = "elevated" then 400 + r1 * 200
    else if terrain_tag = "peak" then 800 + r1 * 400
    else if terrain_tag = "underground" then -100 - r1 * 200
    else 100 + r1 * 100
  let (r2, rs2) := randFloat rs1
  let moisture : ℚ := (4 : ℚ) / 10 + r2 * ((2 : ℚ) / 10)
  ({ coord := ⟨q, r⟩, terrain := terrain, elevation := elevation,
      moisture := moisture, temperature := 15,
      species_fitness := ⟨1 / 2, 1 / 2, 1 / 2⟩ }, rs2)

/-- The coordinate values scanned by `range(-world_radius, world_radius+1)`. -/
def intRange (world_radius : Nat) : List Int :=
  (List.range (2 * world_radius + 1)).map
    (fun (i : Nat) => (i : Int) - world_radius)

/-- `FillerGenerator._find_empty_positions(fixed, world_radius)`; the
returned `empty` set is modelled as its (duplicate-free, scan-order)
element list. -/
def findEmptyPositions (fixed : Finset (Int × Int)) (world_radius : Nat) :
    List (Int × Int) :=
  (intRange world_radius).flatMap (fun q =>
    (intRange world_radius).filterMap (fun r =>
      let s := -q - r
      if max q.natAbs (max r.natAbs s.natAbs) ≤ world_radius then
        if (q, r) ∉ fixed then some (q, r) else none
      else none))

/-- `FillerGenerator._initialize_wave(empty, fixed, hex_map)`; the wave dict
is an association list over one iteration order of the `empty` set. -/
def initializeWave (cfg : FillerConfig) (empty : List (Int × Int))
    (fixed : Finset (Int × Int)) (hex_map : List ((Int × Int) × WorldHex)) :
    List ((Int × Int) × WaveCell) :=
  empty.map (fun pos =>
    let possible0 := (getAllNeighbors pos.1 pos.2).foldl (fun possible n =>
      let nkey := (n.1, n.2.1)
      if nkey ∈ fixed then
        match dictFind? hex_map nkey with
        | some neighbor_hex =>
            let neighbor_terrain := extractTerrainTag neighbor_hex
            match cfg.transitions neighbor_terrain with
            | some compatible => possible ∩ compatible.toFinset
            | none => possible
        | none => possible
      else possible) cfg.all_terrain_tags
    let possible :=
      if possible0 = ∅ then ({"surface"} : Finset String) else possible0
    (pos, { possible_tags := possible }))

/-- `FillerGenerator._build_initial_frontier(empty, fixed)`; the frontier
set is kept as a duplicate-free list over one iteration order. -/
def buildInitialFrontier (empty : List (Int × Int))
    (fixed : Finset (Int × Int)) : List (Int × Int) :=
  empty.filter (fun pos =>
    (getAllNeighbors pos.1 pos.2).any (fun n => decide ((n.1, n.2.1) ∈ fixed)))

/-- One frontier element of the scan in `_select_min_entropy`: compute the
jittered entropy of an uncollapsed cell and keep the strict minimum. -/
def selectStep (wave : List ((Int × Int) × WaveCell))
    (acc : Option (ℚ × (Int × Int)) × RandFloatSrc) (pos_key : Int × Int) :
    Option (ℚ × (Int × Int)) × RandFloatSrc :=
  match dictFind? wave pos_key with
  | some cell =>
      if cell.collapsed = false then
        let (jitter, rs1) := randFloat acc.2
        let entropy := (cell.possible_tags.card : ℚ) + jitter * (1 / 10)
        match acc.1 with
        | none => (some (entropy, pos_key), rs1)
        | some (min_entropy, min_pos) =>
            if entropy < min_entropy then (some (entropy, pos_key), rs1)
            else (some (min_entropy, min_pos), rs1)
      else acc
  | none => acc

/-- `FillerGenerator._select_min_entropy(frontier, wave)` (`float('inf')`
is the `none` accumulator state). -/
def selectMinEntropy (frontier : List (Int × Int))
    (wave : List ((Int × Int) × WaveCell)) (rs : RandFloatSrc) :
    Option (Int × Int) × RandFloatSrc :=
  let result := frontier.foldl (selectStep wave) (none, rs)
  ((result.1).map (·.2), result.2)

/-- The per-tag weight product of `_collapse` (transition weights against
every collapsed wave neighbor and every fixed map neighbor; missing
entries default to multiplier 1.0). -/
def collapseWeight (cfg : FillerConfig)
    (wave : List ((Int × Int) × WaveCell))
    (hex_map : List ((Int × Int) × WorldHex)) (pos_key : Int × Int)
    (tag : String) : ℚ :=
  (getAllNeighbors pos_key.1 pos_key.2).foldl (fun weight n =>
    let nkey := (n.1, n.2.1)
    let weight1 :=
      match dictFind? wave nkey with
      | some ncell =>
          if ncell.collapsed then
            match ncell.chosen_tag with
            | some neighbor_tag =>
                match cfg.weights neighbor_tag tag with
                | some w => weight * w
                | none => weight
            | none => weight
          else weight
      | none => weight
    match dictFind? hex_map nkey with
    | some neighbor_hex =>
        match cfg.weights (extractTerrainTag neighbor_hex) tag with
        | some w => weight1 * w
        | none => weight1
    | none => weight1) 1

/-- The cumulative-weight scan of `_collapse`
(`if rand <= cumulative: return tag`). -/
def scanWeighted (rand : ℚ) : ℚ → List (String × ℚ) → Option String
  | _, [] => none
  | cumulative, (tag, weight) :: rest =>
      let c := cumulative + weight
      if rand ≤ c then some tag else scanWeighted rand c rest

/-- `random.choice(l)` given one uniform draw `r`. -/
def randChoice (l : List String) (r : ℚ) : Option String :=
  l.get? ((Int.toNat ⌊r * l.length⌋) % l.length)

/-- One iteration order of a Python string set (`list(s)` / `for tag in s`). -/
def sortedTags (s : Finset String) : List String := s.sort (· ≤ ·)

/-- `FillerGenerator._collapse(cell, pos_key, wave, hex_map)`.
The outer `Option` marks code paths where Python would raise
(`weighted_choices[-1]` / `random.choice` on an empty list — provably
unreachable); the inner `Option` is the function's own `Optional[str]`. -/
def collapse (cfg : FillerConfig) (cell : WaveCell) (pos_key : Int × Int)
    (wave : List ((Int × Int) × WaveCell))
    (hex_map : List ((Int × Int) × WorldHex)) (rs : RandFloatSrc) :
    Option (Option String × RandFloatSrc) :=
  if cell.possible_tags = ∅ then some (none, rs)
  else
    let weighted_choices := (sortedTags cell.possible_tags).map
      (fun tag => (tag, collapseWeight cfg wave hex_map pos_key tag))
    let total_weight := (weighted_choices.map (·.2)).sum
    if total_weight ≤ 0 then
      let (r0, rs1) := randFloat rs
      match randChoice (sortedTags cell.possible_tags) r0 with
      | some t => some (some t, rs1)
      | none => none
    else
      let (r0, rs1) := randFloat rs
      let rand := r0 * total_weight
      match scanWeighted rand 0 weighted_choices with
      | some t => some (some t, rs1)
      | none =>
          match weighted_choices.getLast? with
          | some last => some (some last.1, rs1)
          | none => none

/-- `FillerGenerator._propagate_constraints(pos_key, wave, hex_map)`. -/
def propagateConstraints (cfg : FillerConfig) (pos_key : Int × Int)
    (wave : List ((Int × Int) × WaveCell))
    (hex_map : List ((Int × Int) × WorldHex)) :
    List ((Int × Int) × WaveCell) :=
  match dictFind? wave pos_key with
  | none => wave
  | some cell =>
      if cell.collapsed then wave
      else
        let newTags := (getAllNeighbors pos_key.1 pos_key.2).foldl
          (fun tags n =>
            let nkey := (n.1, n.2.1)
            let tags1 :=
              match dictFind? wave nkey with
              | some ncell =>
                  if ncell.collapsed then
                    match ncell.chosen_tag with
                    | some neighbor_tag =>
                        match cfg.transitions neighbor_tag with
                        | some compatible => tags ∩ compatible.toFinset
                        | none => tags
                    | none => tags
                  else tags
              | none => tags
            match dictFind? hex_map nkey with
            | some neighbor_hex =>
                match cfg.transitions (extractTerrainTag neighbor_hex) with
                | some compatible => tags1 ∩ compatible.toFinset
                | none => tags1
            | none => tags1) cell.possible_tags
        let final :=
          if newTags = ∅ then ({"surface"} : Finset String) else newTags
        dictInsert wave pos_key { cell with possible_tags := final }

/-- The `for nq, nr, _ in get_all_neighbors(q, r)` frontier/propagation
update after a collapse. -/
def neighborsStep (cfg : FillerConfig)
    (hex_map : List ((Int × Int) × WorldHex))
    (fw : List (Int × Int) × List ((Int × Int) × WaveCell))
    (n : Int × Int × Nat) :
    List (Int × Int) × List ((Int × Int) × WaveCell) :=
  let nkey := (n.1, n.2.1)
  match dictFind? fw.2 nkey with
  | some ncell =>
      if ncell.collapsed = false ∧ nkey ∉ fw.1 then
        (fw.1 ++ [nkey], propagateConstraints cfg nkey fw.2 hex_map)
      else fw
  | none => fw

/-- The body of one productive loop iteration of `generate_fillers`
(everything between a successful collapse and `iteration += 1`): mark the
cell collapsed with its chosen terrain, insert the filler hex into the map,
and propagate constraints to uncollapsed non-frontier neighbors while
enqueueing them. Returns `((frontier, wave), hex_map, random-state)`. -/
def fillerCollapseStep (cfg : FillerConfig) (pos_key : Int × Int)
    (cell : WaveCell) (copt : Option String) (frontier1 : List (Int × Int))
    (wave : List ((Int × Int) × WaveCell))
    (hex_map : List ((Int × Int) × WorldHex)) (rs2 : RandFloatSrc) :
    (List (Int × Int) × List ((Int × Int) × WaveCell)) ×
      List ((Int × Int) × WorldHex) × RandFloatSrc :=
  let chosen_terrain := copt.getD "surface"
  let cell1 := { cell with
    chosen_tag := some chosen_terrain
    collapsed := true }
  let wave1 := dictInsert wave pos_key cell1
  let fh := createFillerHex pos_key.1 pos_key.2 chosen_terrain rs2
  let hex_map1 := dictInsert hex_map pos_key fh.1
  let fw := (getAllNeighbors pos_key.1 pos_key.2).foldl
    (neighborsStep cfg hex_map1) (frontier1, wave1)
  (fw, hex_map1, fh.2)

/-- The `while frontier and iteration < self.max_iterations` loop of
`generate_fillers`, with `fuel` the remaining iteration budget.
`none` marks code paths where Python would raise (`frontier.remove` /
`wave[pos_key]` on a missing key — provably unreachable). -/
def fillerLoop (cfg : FillerConfig) (fuel : Nat) (frontier : List (Int × Int))
    (wave : List ((Int × Int) × WaveCell))
    (hex_map : List ((Int × Int) × WorldHex)) (rs : RandFloatSrc) :
    Option (List ((Int × Int) × WorldHex) ×
      List ((Int × Int) × WaveCell) × RandFloatSrc) :=
  if hstop : frontier = [] ∨ fuel = 0 then some (hex_map, wave, rs)
  else
    match selectMinEntropy frontier wave rs with
    | (none, rs1) => some (hex_map, wave, rs1)
    | (some pos_key, rs1) =>
        if hmem : pos_key ∈ frontier then
          let frontier1 := frontier.erase pos_key
          match dictFind? wave pos_key with
          | none => none
          | some cell =>
              if cell.collapsed then
                fillerLoop cfg fuel frontier1 wave hex_map rs1
              else
                match collapse cfg cell pos_key wave hex_map rs1 with
                | none => none
                | some (copt, rs2) =>
                    let st := fillerCollapseStep cfg pos_key cell copt
                      frontier1 wave hex_map rs2
                    fillerLoop cfg (fuel - 1) st.1.1 st.1.2 st.2.1 st.2.2
        else none
termination_by (fuel, frontier.length)
decreasing_by
  · apply Prod.Lex.right
    have := List.length_erase_of_mem hmem
    have hpos : 0 < frontier.length :=
      List.length_pos.2 (fun hc => hstop (Or.inl hc))
    omega
  · apply Prod.Lex.left
    have hf : fuel ≠ 0 := fun hf => hstop (Or.inr hf)
    omega

/-- Step 6 of `generate_fillers`: force-fill every still-uncollapsed wave
cell with the `"surface"` fallback. -/
def fillRemaining (wave : List ((Int × Int) × WaveCell))
    (hex_map : List ((Int × Int) × WorldHex)) (rs : RandFloatSrc) :
    List ((Int × Int) × WorldHex) × RandFloatSrc :=
  wave.foldl (fun acc kv =>
    if kv.2.collapsed = false then
      let fh := createFillerHex kv.1.1 kv.1.2 "surface" acc.2
      (dictInsert acc.1 kv.1 fh.1, fh.2)
    else acc) (hex_map, rs)

/-- `FillerGenerator.generate_fillers(hex_map, world_radius)`. -/
def generateFillers (cfg : FillerConfig)
    (hex_map : List ((Int × Int) × WorldHex)) (world_radius : Nat)
    (rs : RandFloatSrc) : Option (List ((Int × Int) × WorldHex)) :=
  let fixed_positions := (dictKeys hex_map).toFinset
  let empty_positions := findEmptyPositions fixed_positions world_radius
  if empty_positions = ∅ then some hex_map
  else
    let wave := initializeWave cfg empty_positions fixed_positions hex_map
    let frontier := buildInitialFrontier empty_positions fixed_positions
    match fillerLoop cfg cfg.max_iterations frontier wave hex_map rs with
    | none => none
    | some (hex_map1, wave1, rs1) => some (fillRemaining wave1 hex_map1 rs1).1

/-! ### Supporting lemmas for the filler generator -/

theorem dictKeys_insert_of_mem {α β : Type} [DecidableEq α]
    {d : List (α × β)} {k : α} (v : β) (h : k ∈ dictKeys d) :
    dictKeys (dictInsert d k v) = dictKeys d := by
  induction d with
  | nil => simp [dictKeys] at h
  | cons p rest ih =>
      obtain ⟨k0, v0⟩ := p
      by_cases h0 : k0 = k
      · subst h0
        simp [dictInsert, dictKeys]
      · rw [dictKeys_cons, List.mem_cons] at h
        rcases h with h | h
        · exact absurd h.symm h0
        · simp [dictInsert, h0, dictKeys_cons, ih h]

theorem mem_intRange (world_radius : Nat) (a : Int) :
    a ∈ intRange world_radius ↔
      -(world_radius : Int) ≤ a ∧ a ≤ world_radius := by
  constructor
  · intro h
    rw [intRange, List.mem_map] at h
    obtain ⟨i, hi, heq⟩ := h
    rw [List.mem_range] at hi
    omega
  · intro h
    rw [intRange, List.mem_map]
    refine ⟨(a + world_radius).toNat, ?_, ?_⟩
    · rw [List.mem_range]
      omega
    · show ((a + world_radius).toNat : Int) - world_radius = a
      omega

theorem mem_findEmptyPositions (fixed : Finset (Int × Int))
    (world_radius : Nat) (q r : Int) :
    (q, r) ∈ findEmptyPositions fixed world_radius ↔
      (max q.natAbs (max r.natAbs (-q - r).natAbs) ≤ world_radius ∧
        (q, r) ∉ fixed) := by
  simp only [findEmptyPositions, List.mem_flatMap, List.mem_filterMap]
  constructor
  · rintro ⟨q1, hq1, r1, hr1, hif⟩
    split_ifs at hif with h1 h2
    · simp at hif
      obtain ⟨rfl, rfl⟩ := hif
      exact ⟨h1, h2⟩
  · rintro ⟨hb, hnf⟩
    refine ⟨q, ?_, r, ?_, ?_⟩
    · rw [mem_intRange]
      omega
    · rw [mem_intRange]
      omega
    · simp only [hb, if_true, hnf, not_false_iff]

theorem initializeWave_keys (cfg : FillerConfig) (empty : List (Int × Int))
    (fixed : Finset (Int × Int)) (hex_map : List ((Int × Int) × WorldHex)) :
    dictKeys (initializeWave cfg empty fixed hex_map) = empty := by
  induction empty with
  | nil => rfl
  | cons pos rest ih =>
      simp only [initializeWave, List.map_cons, dictKeys_cons] at ih ⊢
      rw [ih]

theorem initializeWave_uncollapsed (cfg : FillerConfig)
    (empty : List (Int × Int)) (fixed : Finset (Int × Int))
    (hex_map : List ((Int × Int) × WorldHex)) :
    ∀ k c, dictFind? (initializeWave cfg empty fixed hex_map) k = some c →
      c.collapsed = false := by
  intro k c h
  have hmem := mem_of_dictFind?_eq_some h
  rw [initializeWave, List.mem_map] at hmem
  obtain ⟨pos, -, heq⟩ := hmem
  have h3 := congrArg (fun p : (Int × Int) × WaveCell => p.2.collapsed) heq
  simpa using h3.symm

theorem sortedTags_ne_nil {s : Finset String} (h : s ≠ ∅) :
    sortedTags s ≠ [] := by
  obtain ⟨a, ha⟩ := Finset.nonempty_iff_ne_empty.2 h
  intro hc
  have : a ∈ sortedTags s := (Finset.mem_sort _).2 ha
  rw [hc] at this
  simp at this

theorem randChoice_isSome {l : List String} (hl : l ≠ []) (r : ℚ) :
    ∃ t, randChoice l r = some t := by
  have hlen : 0 < l.length := List.length_pos.2 hl
  have hidx : (Int.toNat ⌊r * l.length⌋) % l.length < l.length :=
    Nat.mod_lt _ hlen
  exact ⟨_, List.get?_eq_get hidx⟩

theorem collapse_isSome (cfg : FillerConfig) (cell : WaveCell)
    (pos_key : Int × Int) (wave : List ((Int × Int) × WaveCell))
    (hex_map : List ((Int × Int) × WorldHex)) (rs : RandFloatSrc) :
    ∃ out, collapse cfg cell pos_key wave hex_map rs = some out := by
  simp only [collapse]
  split_ifs with hp ht
  · exact ⟨_, rfl⟩
  · obtain ⟨t, hc⟩ := randChoice_isSome (sortedTags_ne_nil hp) (randFloat rs).1
    rw [hc]
    exact ⟨_, rfl⟩
  · split
    · exact ⟨_, rfl⟩
    · split
      · exact ⟨_, rfl⟩
      · rename_i hscan hlast
        rw [List.getLast?_eq_none_iff] at hlast
        exact absurd (by simpa using hlast) (sortedTags_ne_nil hp)

/-- A cell key is selectable when its wave cell exists and is uncollapsed
(the `if cell and not cell.collapsed` test of `_select_min_entropy`). -/
def Selectable (wave : List ((Int × Int) × WaveCell)) (k : Int × Int) : Prop :=
  ∃ cell, dictFind? wave k = some cell ∧ cell.collapsed = false

theorem selectStep_none {wave : List ((Int × Int) × WaveCell)}
    {x : Int × Int} (acc : Option (ℚ × (Int × Int)) × RandFloatSrc)
    (hw : dictFind? wave x = none) : selectStep wave acc x = acc := by
  simp [selectStep, hw]

theorem selectStep_collapsed {wave : List ((Int × Int) × WaveCell)}
    {x : Int × Int} {cell : WaveCell}
    (acc : Option (ℚ × (Int × Int)) × RandFloatSrc)
    (hw : dictFind? wave x = some cell) (hcol : cell.collapsed = true) :
    selectStep wave acc x = acc := by
  simp [selectStep, hw, hcol]

theorem selectStep_valid_none {wave : List ((Int × Int) × WaveCell)}
    {x : Int × Int} {cell : WaveCell}
    {acc : Option (ℚ × (Int × Int)) × RandFloatSrc}
    (hw : dictFind? wave x = some cell) (hcol : cell.collapsed = false)
    (ha : acc.1 = none) :
    selectStep wave acc x =
      (some ((cell.possible_tags.card : ℚ) + (randFloat acc.2).1 * (1 / 10),
        x), (randFloat acc.2).2) := by
  simp [selectStep, hw, hcol, ha, randFloat]

theorem selectStep_valid_lt {wave : List ((Int × Int) × WaveCell)}
    {x : Int × Int} {cell : WaveCell} {me : ℚ} {mp : Int × Int}
    {acc : Option (ℚ × (Int × Int)) × RandFloatSrc}
    (hw : dictFind? wave x = some cell) (hcol : cell.collapsed = false)
    (ha : acc.1 = some (me, mp))
    (hlt : (cell.possible_tags.card : ℚ) + (randFloat acc.2).1 * (1 / 10)
      < me) :
    selectStep wave acc x =
      (some ((cell.possible_tags.card : ℚ) + (randFloat acc.2).1 * (1 / 10),
        x), (randFloat acc.2).2) := by
  simp [selectStep, hw, hcol, ha, randFloat] at hlt ⊢
  intro h
  exact absurd hlt (by simpa using h)

theorem selectStep_valid_ge {wave : List ((Int × Int) × WaveCell)}
    {x : Int × Int} {cell : WaveCell} {me : ℚ} {mp : Int × Int}
    {acc : Option (ℚ × (Int × Int)) × RandFloatSrc}
    (hw : dictFind? wave x = some cell) (hcol : cell.collapsed = false)
    (ha : acc.1 = some (me, mp))
    (hge : ¬((cell.possible_tags.card : ℚ) + (randFloat acc.2).1 * (1 / 10)
      < me)) :
    selectStep wave acc x = (some (me, mp), (randFloat acc.2).2) := by
  simp [selectStep, hw, hcol, ha, randFloat] at hge ⊢
  intro h
  exact absurd h (by simpa using hge)

/-- Full characterization of one `_select_min_entropy` scan step. -/
theorem selectStep_char (wave : List ((Int × Int) × WaveCell))
    (acc : Option (ℚ × (Int × Int)) × RandFloatSrc) (x : Int × Int) :
    (selectStep wave acc x).2.stream = acc.2.stream ∧
    ((¬Selectable wave x ∧ selectStep wave acc x = acc) ∨
      (∃ cell, dictFind? wave x = some cell ∧ cell.collapsed = false ∧
        (selectStep wave acc x).2 = (randFloat acc.2).2 ∧
        ((acc.1 = none ∧ (selectStep wave acc x).1 =
            some ((cell.possible_tags.card : ℚ) +
              (randFloat acc.2).1 * (1 / 10), x)) ∨
          (∃ me mp, acc.1 = some (me, mp) ∧
            (((cell.possible_tags.card : ℚ) +
                  (randFloat acc.2).1 * (1 / 10) < me ∧
                (selectStep wave acc x).1 =
                  some ((cell.possible_tags.card : ℚ) +
                    (randFloat acc.2).1 * (1 / 10), x)) ∨
              (¬((cell.possible_tags.card : ℚ) +
                    (randFloat acc.2).1 * (1 / 10) < me) ∧
                (selectStep wave acc x).1 = some (me, mp))))))) := by
  cases hw : dictFind? wave x with
  | none =>
      rw [selectStep_none acc hw]
      refine ⟨rfl, Or.inl ⟨?_, rfl⟩⟩
      rintro ⟨cell, hcell, -⟩
      rw [hw] at hcell
      cases hcell
  | some cell =>
      cases hcol : cell.collapsed with
      | true =>
          rw [selectStep_collapsed acc hw hcol]
          refine ⟨rfl, Or.inl ⟨?_, rfl⟩⟩
          rintro ⟨cell1, hcell1, hcol1⟩
          rw [hw] at hcell1
          cases hcell1
          rw [hcol] at hcol1
          cases hcol1
      | false =>
          cases ha : acc.1 with
          | none =>
              rw [selectStep_valid_none hw hcol ha]
              exact ⟨rfl, Or.inr ⟨cell, rfl, hcol, rfl, Or.inl ⟨rfl, rfl⟩⟩⟩
          | some p =>
              obtain ⟨me, mp⟩ := p
              by_cases hlt : (cell.possible_tags.card : ℚ) +
                  (randFloat acc.2).1 * (1 / 10) < me
              · rw [selectStep_valid_lt hw hcol ha hlt]
                exact ⟨rfl, Or.inr ⟨cell, rfl, hcol, rfl,
                  Or.inr ⟨me, mp, rfl, Or.inl ⟨hlt, rfl⟩⟩⟩⟩
              · rw [selectStep_valid_ge hw hcol ha hlt]
                exact ⟨rfl, Or.inr ⟨cell, rfl, hcol, rfl,
                  Or.inr ⟨me, mp, rfl, Or.inr ⟨hlt, rfl⟩⟩⟩⟩

theorem selectFold_stream (wave : List ((Int × Int) × WaveCell)) :
    ∀ (l : List (Int × Int)) (acc : Option (ℚ × (Int × Int)) × RandFloatSrc),
      ((l.foldl (selectStep wave) acc).2).stream = acc.2.stream := by
  intro l
  induction l with
  | nil => intro acc; rfl
  | cons x rest ih =>
      intro acc
      rw [List.foldl_cons]
      rw [ih]
      exact (selectStep_char wave acc x).1

theorem selectFold_cases (wave : List ((Int × Int) × WaveCell)) :
    ∀ (l : List (Int × Int)) (acc : Option (ℚ × (Int × Int)) × RandFloatSrc)
      (e : ℚ) (k : Int × Int),
      (l.foldl (selectStep wave) acc).1 = some (e, k) →
      acc.1 = some (e, k) ∨ (k ∈ l ∧ Selectable wave k) := by
  intro l
  induction l with
  | nil =>
      intro acc e k h
      exact Or.inl (by simpa using h)
  | cons x rest ih =>
      intro acc e k h
      rw [List.foldl_cons] at h
      rcases ih _ e k h with hacc | ⟨hmem, hsel⟩
      · rcases (selectStep_char wave acc x).2 with ⟨-, heq⟩ |
          ⟨cell, hw, hcol, -, hcases⟩
        · rw [heq] at hacc
          exact Or.inl hacc
        · rcases hcases with ⟨-, hres⟩ | ⟨me, mp, hsome, hcases2⟩
          · rw [hres] at hacc
            obtain ⟨-, rfl⟩ : _ ∧ x = k := by simpa using hacc
            exact Or.inr ⟨List.mem_cons_self x rest, cell, hw, hcol⟩
          · rcases hcases2 with ⟨-, hres⟩ | ⟨-, hres⟩
            · rw [hres] at hacc
              obtain ⟨-, rfl⟩ : _ ∧ x = k := by simpa using hacc
              exact Or.inr ⟨List.mem_cons_self x rest, cell, hw, hcol⟩
            · rw [hres] at hacc
              obtain ⟨h1, h2⟩ : me = e ∧ mp = k := by simpa using hacc
              rw [← h1, ← h2]
              exact Or.inl hsome
      · exact Or.inr ⟨List.mem_cons_of_mem x hmem, hsel⟩

theorem selectFold_isSome (wave : List ((Int × Int) × WaveCell)) :
    ∀ (l : List (Int × Int)) (acc : Option (ℚ × (Int × Int)) × RandFloatSrc),
      ((∃ k ∈ l, Selectable wave k) ∨ acc.1.isSome) →
      ((l.foldl (selectStep wave) acc).1).isSome := by
  intro l
  induction l with
  | nil =>
      intro acc h
      rcases h with ⟨k, hk, -⟩ | h
      · simp at hk
      · simpa using h
  | cons x rest ih =>
      intro acc h
      rw [List.foldl_cons]
      rcases (selectStep_char wave acc x).2 with ⟨hnot, heq⟩ |
        ⟨cell, hw, hcol, -, hcases⟩
      · rw [heq]
        apply ih
        rcases h with ⟨k, hk, hsel⟩ | h
        · rcases List.mem_cons.1 hk with rfl | hk
          · exact absurd hsel hnot
          · exact Or.inl ⟨k, hk, hsel⟩
        · exact Or.inr h
      · apply ih
        refine Or.inr ?_
        rcases hcases with ⟨-, hres⟩ | ⟨me, mp, -, hcases2⟩
        · rw [hres]; rfl
        · rcases hcases2 with ⟨-, hres⟩ | ⟨-, hres⟩ <;> rw [hres] <;> rfl

theorem selectFold_min (wave : List ((Int × Int) × WaveCell)) (σ : Nat → ℚ)
    (hσ : ∀ n, 0 ≤ σ n ∧ σ n < 1) :
    ∀ (l : List (Int × Int)) (acc : Option (ℚ × (Int × Int)) × RandFloatSrc),
      acc.2.stream = σ →
      (∀ e0 k0, acc.1 = some (e0, k0) →
        ∃ cell, dictFind? wave k0 = some cell ∧ cell.collapsed = false ∧
          (cell.possible_tags.card : ℚ) ≤ e0 ∧
          e0 < cell.possible_tags.card + 1) →
      ∀ e k, (l.foldl (selectStep wave) acc).1 = some (e, k) →
        (∃ cell, dictFind? wave k = some cell ∧ cell.collapsed = false ∧
          (cell.possible_tags.card : ℚ) ≤ e ∧
          e < cell.possible_tags.card + 1) ∧
        (∀ k1 cell1, k1 ∈ l → dictFind? wave k1 = some cell1 →
          cell1.collapsed = false → e < cell1.possible_tags.card + 1) ∧
        (∀ e0 k0, acc.1 = some (e0, k0) → e ≤ e0) := by
  intro l
  induction l with
  | nil =>
      intro acc hst hacc e k h
      simp only [List.foldl_nil] at h
      refine ⟨hacc e k h, by simp, ?_⟩
      intro e0 k0 h0
      have := h.symm.trans h0
      simp at this
      exact le_of_eq this.1
  | cons x rest ih =>
      intro acc hst hacc e k h
      rw [List.foldl_cons] at h
      have hjit : 0 ≤ (randFloat acc.2).1 ∧ (randFloat acc.2).1 < 1 := by
        have : (randFloat acc.2).1 = σ acc.2.idx := by rw [← hst]; rfl
        rw [this]
        exact hσ acc.2.idx
      have hstep := selectStep_char wave acc x
      have hst' : (selectStep wave acc x).2.stream = σ := by
        rw [hstep.1, hst]
      rcases hstep.2 with ⟨hnot, heq⟩ | ⟨cell, hw, hcol, -, hcases⟩
      · rw [heq] at h
        obtain ⟨hex, hmin, hle⟩ := ih acc hst hacc e k h
        refine ⟨hex, ?_, hle⟩
        intro k1 cell1 hk1 hw1 hcol1
        rcases List.mem_cons.1 hk1 with rfl | hk1
        · exact absurd ⟨cell1, hw1, hcol1⟩ hnot
        · exact hmin k1 cell1 hk1 hw1 hcol1
      · -- x is selectable; the accumulator after the step satisfies the
        -- card bounds, and its entropy is ≤ the entropy computed for x
        have hacc' : ∀ e0 k0, (selectStep wave acc x).1 = some (e0, k0) →
            ∃ cell0, dictFind? wave k0 = some cell0 ∧
              cell0.collapsed = false ∧
              (cell0.possible_tags.card : ℚ) ≤ e0 ∧
              e0 < cell0.possible_tags.card + 1 := by
          intro e0 k0 h0
          rcases hcases with ⟨-, hres⟩ | ⟨me, mp, hsome, hcases2⟩
          · rw [hres] at h0
            obtain ⟨he0, rfl⟩ : _ = e0 ∧ x = k0 := by simpa using h0
            refine ⟨cell, hw, hcol, ?_, ?_⟩
            · rw [← he0]
              nlinarith [hjit.1, hjit.2]
            · rw [← he0]
              nlinarith [hjit.1, hjit.2]
          · rcases hcases2 with ⟨-, hres⟩ | ⟨-, hres⟩
            · rw [hres] at h0
              obtain ⟨he0, rfl⟩ : _ = e0 ∧ x = k0 := by simpa using h0
              refine ⟨cell, hw, hcol, ?_, ?_⟩
              · rw [← he0]
                nlinarith [hjit.1, hjit.2]
              · rw [← he0]
                nlinarith [hjit.1, hjit.2]
            · rw [hres] at h0
              obtain ⟨h1, h2⟩ : me = e0 ∧ mp = k0 := by simpa using h0
              rw [← h1, ← h2]
              exact hacc me mp hsome
        have hxbound : ∀ e1 k1, (selectStep wave acc x).1 = some (e1, k1) →
            e1 < (cell.possible_tags.card : ℚ) + 1 := by
          intro e1 k1 h1
          rcases hcases with ⟨-, hres⟩ | ⟨me, mp, hsome, hcases2⟩
          · rw [hres] at h1
            obtain ⟨he1, -⟩ : _ = e1 ∧ x = k1 := by simpa using h1
            rw [← he1]
            nlinarith [hjit.1, hjit.2]
          · rcases hcases2 with ⟨hlt, hres⟩ | ⟨hge, hres⟩
            · rw [hres] at h1
              obtain ⟨he1, -⟩ : _ = e1 ∧ x = k1 := by simpa using h1
              rw [← he1]
              nlinarith [hjit.1, hjit.2]
            · rw [hres] at h1
              obtain ⟨h1e, -⟩ : me = e1 ∧ mp = k1 := by simpa using h1
              rw [← h1e]
              have hme : me ≤ (cell.possible_tags.card : ℚ) +
                  (randFloat acc.2).1 * (1 / 10) := le_of_not_lt hge
              nlinarith [hjit.1, hjit.2]
        obtain ⟨hex, hmin, hle⟩ := ih _ hst' hacc' e k h
        refine ⟨hex, ?_, ?_⟩
        · intro k1 cell1 hk1 hw1 hcol1
          rcases List.mem_cons.1 hk1 with rfl | hk1
          · -- k1 = x: the post-step accumulator entropy is below
            -- card(x) + 1, and the final e is ≤ it
            rw [hw] at hw1
            cases hw1
            rcases hcases with ⟨-, hres⟩ | ⟨me, mp, hsome, hcases2⟩
            · exact lt_of_le_of_lt (hle _ _ hres) (hxbound _ _ hres)
            · rcases hcases2 with ⟨hlt, hres⟩ | ⟨hge, hres⟩
              · exact lt_of_le_of_lt (hle _ _ hres) (hxbound _ _ hres)
              · exact lt_of_le_of_lt (hle _ _ hres) (hxbound _ _ hres)
          · exact hmin k1 cell1 hk1 hw1 hcol1
        · intro e0 k0 h0
          rcases hcases with ⟨hnone, hres⟩ | ⟨me, mp, hsome, hcases2⟩
          · rw [hnone] at h0
            cases h0
          · rw [hsome] at h0
            obtain ⟨rfl, rfl⟩ : me = e0 ∧ mp = k0 := by simpa using h0
            rcases hcases2 with ⟨hlt, hres⟩ | ⟨hge, hres⟩
            · exact le_of_lt (lt_of_le_of_lt (hle _ _ hres) hlt)
            · exact hle _ _ hres

/-- C8: whenever the frontier holds at least one uncollapsed wave cell,
`_select_min_entropy` returns such a cell, and — because every jitter
`random.random() * 0.1` is strictly below 1 — its possibility-set
cardinality is minimal among all uncollapsed frontier cells. -/
theorem selectMinEntropy_min (frontier : List (Int × Int))
    (wave : List ((Int × Int) × WaveCell)) (rs : RandFloatSrc)
    (hσ : ∀ n, 0 ≤ rs.stream n ∧ rs.stream n < 1)
    (hex : ∃ k ∈ frontier, Selectable wave k) :
    ∃ k, (selectMinEntropy frontier wave rs).1 = some k ∧ k ∈ frontier ∧
      ∃ cell, dictFind? wave k = some cell ∧ cell.collapsed = false ∧
        ∀ k1 cell1, k1 ∈ frontier → dictFind? wave k1 = some cell1 →
          cell1.collapsed = false →
          cell.possible_tags.card ≤ cell1.possible_tags.card := by
  have hsome := selectFold_isSome wave frontier (none, rs) (Or.inl hex)
  obtain ⟨⟨e, k⟩, hfold⟩ := Option.isSome_iff_exists.1 hsome
  have hmem : k ∈ frontier ∧ Selectable wave k := by
    rcases selectFold_cases wave frontier (none, rs) e k hfold with hc | hc
    · cases hc
    · exact hc
  obtain ⟨hexq, hmin, -⟩ := selectFold_min wave rs.stream hσ frontier
    (none, rs) rfl (by intro e0 k0 h0; cases h0) e k hfold
  obtain ⟨cell, hw, hcol, hcardle, -⟩ := hexq
  refine ⟨k, ?_, hmem.1, cell, hw, hcol, ?_⟩
  · rw [selectMinEntropy, hfold]
    rfl
  · intro k1 cell1 hk1 hw1 hcol1
    have h1 := hmin k1 cell1 hk1 hw1 hcol1
    have : (cell.possible_tags.card : ℚ) < cell1.possible_tags.card + 1 :=
      lt_of_le_of_lt hcardle h1
    exact_mod_cast Nat.lt_succ_iff.1 (by exact_mod_cast this)

/-! Concrete inputs for the C8 witness. -/

/-- A two-entry wave: `(0,0)` has two possibilities, `(1,0)` has one. -/
def waveW : List ((Int × Int) × WaveCell) :=
  [((0, 0), { possible_tags := {"surface", "underground"} }),
   ((1, 0), { possible_tags := {"surface"} })]

theorem selectMinEntropy_min_witness :
    ∃ k, (selectMinEntropy [(0, 0), (1, 0)] waveW
        ⟨fun _ => 0, 0⟩).1 = some k ∧ k ∈ [((0 : Int), (0 : Int)), (1, 0)] ∧
      ∃ cell, dictFind? waveW k = some cell ∧ cell.collapsed = false ∧
        ∀ k1 cell1, k1 ∈ [((0 : Int), (0 : Int)), (1, 0)] →
          dictFind? waveW k1 = some cell1 → cell1.collapsed = false →
          cell.possible_tags.card ≤ cell1.possible_tags.card :=
  selectMinEntropy_min [(0, 0), (1, 0)] waveW ⟨fun _ => 0, 0⟩
    (fun n => ⟨le_refl 0, by norm_num⟩)
    ⟨(0, 0), by simp, { possible_tags := {"surface", "underground"} },
      rfl, rfl⟩

theorem selectMinEntropy_some {frontier : List (Int × Int)}
    {wave : List ((Int × Int) × WaveCell)} {rs : RandFloatSrc}
    {pos : Int × Int} {rs1 : RandFloatSrc}
    (h : selectMinEntropy frontier wave rs = (some pos, rs1)) :
    pos ∈ frontier ∧ Selectable wave pos := by
  have h1 : ((frontier.foldl (selectStep wave) (none, rs)).1).map (·.2) =
      some pos := congrArg Prod.fst h
  rw [Option.map_eq_some'] at h1
  obtain ⟨⟨e, k⟩, hr, hk⟩ := h1
  rcases selectFold_cases wave frontier (none, rs) e k hr with hc | hc
  · cases hc
  · exact hk ▸ hc

theorem propagateConstraints_keys (cfg : FillerConfig) (pos_key : Int × Int)
    (wave : List ((Int × Int) × WaveCell))
    (hex_map : List ((Int × Int) × WorldHex)) :
    dictKeys (propagateConstraints cfg pos_key wave hex_map) =
      dictKeys wave := by
  cases hw : dictFind? wave pos_key with
  | none => simp [propagateConstraints, hw]
  | some cell =>
      cases hcol : cell.collapsed with
      | true => simp [propagateConstraints, hw, hcol]
      | false =>
          simp only [propagateConstraints, hw, hcol, Bool.false_eq_true,
            if_false]
          exact dictKeys_insert_of_mem _ (mem_keys_of_dictFind?_eq_some hw)

theorem propagateConstraints_find (cfg : FillerConfig) (pos_key : Int × Int)
    (wave : List ((Int × Int) × WaveCell))
    (hex_map : List ((Int × Int) × WorldHex)) :
    ∀ k c1, dictFind? (propagateConstraints cfg pos_key wave hex_map) k =
        some c1 →
      ∃ c0, dictFind? wave k = some c0 ∧ c1.collapsed = c0.collapsed ∧
        c1.chosen_tag = c0.chosen_tag := by
  intro k c1 h
  cases hw : dictFind? wave pos_key with
  | none =>
      rw [propagateConstraints] at h
      rw [hw] at h
      exact ⟨c1, h, rfl, rfl⟩
  | some cell =>
      cases hcol : cell.collapsed with
      | true =>
          simp only [propagateConstraints, hw, hcol, if_true] at h
          exact ⟨c1, h, rfl, rfl⟩
      | false =>
          simp only [propagateConstraints, hw, hcol, Bool.false_eq_true,
            if_false] at h
          by_cases hk : k = pos_key
          · subst hk
            rw [dictFind?_insert_self] at h
            injection h with h2
            subst h2
            exact ⟨cell, hw, hcol.symm, rfl⟩
          · rw [dictFind?_insert_ne _ _ _ _ hk] at h
            exact ⟨c1, h, rfl, rfl⟩

theorem neighborsStep_keys (cfg : FillerConfig)
    (hex_map : List ((Int × Int) × WorldHex))
    (fw : List (Int × Int) × List ((Int × Int) × WaveCell))
    (n : Int × Int × Nat) :
    dictKeys (neighborsStep cfg hex_map fw n).2 = dictKeys fw.2 := by
  cases hw : dictFind? fw.2 (n.1, n.2.1) with
  | none => simp [neighborsStep, hw]
  | some ncell =>
      by_cases hc : ncell.collapsed = false ∧ (n.1, n.2.1) ∉ fw.1
      · simp only [neighborsStep, hw, hc, if_true]
        exact propagateConstraints_keys ..
      · simp [neighborsStep, hw, hc]

theorem neighborsStep_find (cfg : FillerConfig)
    (hex_map : List ((Int × Int) × WorldHex))
    (fw : List (Int × Int) × List ((Int × Int) × WaveCell))
    (n : Int × Int × Nat) :
    ∀ k c1, dictFind? (neighborsStep cfg hex_map fw n).2 k = some c1 →
      ∃ c0, dictFind? fw.2 k = some c0 ∧ c1.collapsed = c0.collapsed ∧
        c1.chosen_tag = c0.chosen_tag := by
  intro k c1 h
  cases hw : dictFind? fw.2 (n.1, n.2.1) with
  | none =>
      rw [neighborsStep] at h
      rw [hw] at h
      exact ⟨c1, h, rfl, rfl⟩
  | some ncell =>
      by_cases hc : ncell.collapsed = false ∧ (n.1, n.2.1) ∉ fw.1
      · simp only [neighborsStep, hw, hc, if_true] at h
        exact propagateConstraints_find _ _ _ _ k c1 h
      · simp only [neighborsStep, hw, hc, if_false] at h
        exact ⟨c1, h, rfl, rfl⟩

theorem neighborsFold_keys (cfg : FillerConfig)
    (hex_map : List ((Int × Int) × WorldHex)) :
    ∀ (ns : List (Int × Int × Nat))
      (fw : List (Int × Int) × List ((Int × Int) × WaveCell)),
      dictKeys (ns.foldl (neighborsStep cfg hex_map) fw).2 =
        dictKeys fw.2 := by
  intro ns
  induction ns with
  | nil => intro fw; rfl
  | cons n rest ih =>
      intro fw
      rw [List.foldl_cons, ih, neighborsStep_keys]

theorem neighborsFold_find (cfg : FillerConfig)
    (hex_map : List ((Int × Int) × WorldHex)) :
    ∀ (ns : List (Int × Int × Nat))
      (fw : List (Int × Int) × List ((Int × Int) × WaveCell)),
      ∀ k c1, dictFind? (ns.foldl (neighborsStep cfg hex_map) fw).2 k =
          some c1 →
        ∃ c0, dictFind? fw.2 k = some c0 ∧ c1.collapsed = c0.collapsed ∧
          c1.chosen_tag = c0.chosen_tag := by
  intro ns
  induction ns with
  | nil => intro fw k c1 h; exact ⟨c1, h, rfl, rfl⟩
  | cons n rest ih =>
      intro fw k c1 h
      rw [List.foldl_cons] at h
      obtain ⟨c2, h2, hc2, ht2⟩ := ih _ k c1 h
      obtain ⟨c0, h0, hc0, ht0⟩ := neighborsStep_find cfg hex_map fw n k c2 h2
      exact ⟨c0, h0, hc2.trans hc0, ht2.trans ht0⟩

theorem fillRemaining_find_of_notin :
    ∀ (wave : List ((Int × Int) × WaveCell))
      (hex_map : List ((Int × Int) × WorldHex)) (rs : RandFloatSrc)
      (k : Int × Int), k ∉ dictKeys wave →
      dictFind? (fillRemaining wave hex_map rs).1 k = dictFind? hex_map k := by
  intro wave
  induction wave with
  | nil => intro m rs k hk; rfl
  | cons kv rest ih =>
      obtain ⟨k0, c0⟩ := kv
      intro m rs k hk
      rw [dictKeys_cons, List.mem_cons] at hk
      push_neg at hk
      have hstep : fillRemaining ((k0, c0) :: rest) m rs =
          fillRemaining rest
            (if c0.collapsed = false then
              dictInsert m k0 (createFillerHex k0.1 k0.2 "surface" rs).1
            else m)
            (if c0.collapsed = false then
              (createFillerHex k0.1 k0.2 "surface" rs).2
            else rs) := by
        rw [fillRemaining, List.foldl_cons]
        by_cases hc : c0.collapsed = false <;> simp [fillRemaining, hc]
      rw [hstep]
      by_cases hc : c0.collapsed = false
      · rw [if_pos hc, if_pos hc, ih _ _ k hk.2,
          dictFind?_insert_ne _ _ _ _ hk.1]
      · rw [if_neg hc, if_neg hc, ih _ _ k hk.2]

theorem fillRemaining_mem :
    ∀ (wave : List ((Int × Int) × WaveCell))
      (hex_map : List ((Int × Int) × WorldHex)) (rs : RandFloatSrc)
      (k : Int × Int),
      (k ∈ dictKeys hex_map ∨ ∃ c, (k, c) ∈ wave ∧ c.collapsed = false) →
      k ∈ dictKeys (fillRemaining wave hex_map rs).1 := by
  intro wave
  induction wave with
  | nil =>
      intro m rs k hk
      rcases hk with hk | ⟨c, hc, -⟩
      · exact hk
      · simp at hc
  | cons kv rest ih =>
      obtain ⟨k0, c0⟩ := kv
      intro m rs k hk
      have hstep : fillRemaining ((k0, c0) :: rest) m rs =
          fillRemaining rest
            (if c0.collapsed = false then
              dictInsert m k0 (createFillerHex k0.1 k0.2 "surface" rs).1
            else m)
            (if c0.collapsed = false then
              (createFillerHex k0.1 k0.2 "surface" rs).2
            else rs) := by
        rw [fillRemaining, List.foldl_cons]
        by_cases hc : c0.collapsed = false <;> simp [fillRemaining, hc]
      rw [hstep]
      rcases hk with hk | ⟨c, hc, hcol⟩
      · apply ih
        left
        by_cases hcc : c0.collapsed = false
        · rw [if_pos hcc]
          exact (mem_dictKeys_insert ..).2 (Or.inr hk)
        · rw [if_neg hcc]
          exact hk
      · rcases List.mem_cons.1 hc with heq | hmem
        · obtain ⟨h1, h2⟩ := Prod.mk.injEq .. ▸ heq
          apply ih
          left
          rw [if_pos (h2 ▸ hcol), ← h1]
          exact (mem_dictKeys_insert ..).2 (Or.inl rfl)
        · exact ih _ _ k (Or.inr ⟨c, hmem, hcol⟩)

/-- The map/wave bookkeeping facts of one collapse step: wave keys are
unchanged, the map is written only at the (already waved) collapsed key,
previously present keys stay present, and "every collapsed cell has a map
entry" is preserved. -/
theorem fillerCollapseStep_spec (cfg : FillerConfig) (pos_key : Int × Int)
    (cell : WaveCell) (copt : Option String) (frontier1 : List (Int × Int))
    (wave : List ((Int × Int) × WaveCell))
    (hex_map : List ((Int × Int) × WorldHex)) (rs2 : RandFloatSrc)
    (hw : dictFind? wave pos_key = some cell) :
    dictKeys (fillerCollapseStep cfg pos_key cell copt frontier1 wave
        hex_map rs2).1.2 = dictKeys wave ∧
    (∀ k, k ∉ dictKeys wave →
      dictFind? (fillerCollapseStep cfg pos_key cell copt frontier1 wave
        hex_map rs2).2.1 k = dictFind? hex_map k) ∧
    (∀ k, k ∈ dictKeys hex_map →
      k ∈ dictKeys (fillerCollapseStep cfg pos_key cell copt frontier1 wave
        hex_map rs2).2.1) ∧
    ((∀ k c, dictFind? wave k = some c → c.collapsed = true →
        k ∈ dictKeys hex_map) →
      ∀ k c, dictFind? (fillerCollapseStep cfg pos_key cell copt frontier1
          wave hex_map rs2).1.2 k = some c → c.collapsed = true →
        k ∈ dictKeys (fillerCollapseStep cfg pos_key cell copt frontier1
          wave hex_map rs2).2.1) := by
  have hposk : pos_key ∈ dictKeys wave := mem_keys_of_dictFind?_eq_some hw
  simp only [fillerCollapseStep]
  refine ⟨?_, ?_, ?_, ?_⟩
  · rw [neighborsFold_keys]
    exact dictKeys_insert_of_mem _ hposk
  · intro k hk
    have hne : k ≠ pos_key := fun hc => hk (hc ▸ hposk)
    exact dictFind?_insert_ne _ _ _ _ hne
  · intro k hk
    exact (mem_dictKeys_insert ..).2 (Or.inr hk)
  · intro hbase k c hfind hcol
    obtain ⟨c0, hfind0, hcoleq, -⟩ := neighborsFold_find cfg _ _ _ k c hfind
    by_cases hk : k = pos_key
    · subst hk
      exact (mem_dictKeys_insert ..).2 (Or.inl rfl)
    · rw [dictFind?_insert_ne _ _ _ _ hk] at hfind0
      exact (mem_dictKeys_insert ..).2
        (Or.inr (hbase k c0 hfind0 (hcoleq ▸ hcol)))

/-- The filler loop never raises, writes only at wave keys, and preserves
both wave-key structure and the collapsed-cells-are-mapped invariant. -/
theorem fillerLoop_spec (cfg : FillerConfig) :
    ∀ (fuel : Nat) (frontier : List (Int × Int))
      (wave : List ((Int × Int) × WaveCell))
      (hex_map : List ((Int × Int) × WorldHex)) (rs : RandFloatSrc),
      ∃ hex_map1 wave1 rs1,
        fillerLoop cfg fuel frontier wave hex_map rs =
          some (hex_map1, wave1, rs1) ∧
        dictKeys wave1 = dictKeys wave ∧
        (∀ k, k ∉ dictKeys wave →
          dictFind? hex_map1 k = dictFind? hex_map k) ∧
        (∀ k, k ∈ dictKeys hex_map → k ∈ dictKeys hex_map1) ∧
        ((∀ k c, dictFind? wave k = some c → c.collapsed = true →
            k ∈ dictKeys hex_map) →
          ∀ k c, dictFind? wave1 k = some c → c.collapsed = true →
            k ∈ dictKeys hex_map1) := by
  intro fuel
  induction fuel using Nat.strong_induction_on with
  | _ fuel ih =>
    intro frontier wave hex_map rs
    rw [fillerLoop]
    by_cases hstop : frontier = [] ∨ fuel = 0
    · rw [dif_pos hstop]
      exact ⟨hex_map, wave, rs, rfl, rfl, fun k _ => rfl, fun k hk => hk,
        fun h => h⟩
    · rw [dif_neg hstop]
      cases hsel : selectMinEntropy frontier wave rs with
      | mk o rs1 =>
        cases o with
        | none =>
            exact ⟨hex_map, wave, rs1, rfl, rfl, fun k _ => rfl,
              fun k hk => hk, fun h => h⟩
        | some pos_key =>
            obtain ⟨hmem, cell, hw, hcol⟩ := selectMinEntropy_some hsel
            simp only []
            rw [dif_pos hmem]
            simp only [hw, hcol, Bool.false_eq_true, if_false]
            obtain ⟨⟨copt, rs2⟩, hcoll⟩ :=
              collapse_isSome cfg cell pos_key wave hex_map rs1
            simp only [hcoll]
            have hlt : fuel - 1 < fuel := by
              have hf : fuel ≠ 0 := fun hf => hstop (Or.inr hf)
              omega
            obtain ⟨m1, w1, rs9, heq, hkeys, hframe, hpres, hinv⟩ :=
              ih (fuel - 1) hlt
                (fillerCollapseStep cfg pos_key cell copt
                  (frontier.erase pos_key) wave hex_map rs2).1.1
                (fillerCollapseStep cfg pos_key cell copt
                  (frontier.erase pos_key) wave hex_map rs2).1.2
                (fillerCollapseStep cfg pos_key cell copt
                  (frontier.erase pos_key) wave hex_map rs2).2.1
                (fillerCollapseStep cfg pos_key cell copt
                  (frontier.erase pos_key) wave hex_map rs2).2.2
            obtain ⟨hk2, hf2, hp2, hi2⟩ := fillerCollapseStep_spec cfg
              pos_key cell copt (frontier.erase pos_key) wave hex_map rs2 hw
            refine ⟨m1, w1, rs9, heq, ?_, ?_, ?_, ?_⟩
            · rw [hkeys, hk2]
            · intro k hk
              rw [hframe k (by rw [hk2]; exact hk)]
              exact hf2 k hk
            · intro k hk
              exact hpres k (hp2 k hk)
            · intro hbase
              exact hinv (hi2 hbase)

/-- C1: `generate_fillers` returns normally on every input, and afterwards
every axial coordinate `(q, r)` with `max(|q|, |r|, |q+r|) ≤ world_radius`
has an entry in the returned map — no in-bounds cell is left empty. -/
theorem generateFillers_total_coverage (cfg : FillerConfig)
    (hex_map : List ((Int × Int) × WorldHex)) (world_radius : Nat)
    (rs : RandFloatSrc) (q r : Int)
    (hin : max q.natAbs (max r.natAbs (q + r).natAbs) ≤ world_radius) :
    ∃ hex_map1, generateFillers cfg hex_map world_radius rs = some hex_map1 ∧
      (q, r) ∈ dictKeys hex_map1 := by
  have hbounds : max q.natAbs (max r.natAbs (-q - r).natAbs) ≤ world_radius := by
    have hneg : (-q - r).natAbs = (q + r).natAbs := by
      rw [show -q - r = -(q + r) from by ring, Int.natAbs_neg]
    rw [hneg]
    exact hin
  simp only [generateFillers]
  by_cases he : findEmptyPositions (dictKeys hex_map).toFinset world_radius = ∅
  · rw [if_pos he]
    refine ⟨hex_map, rfl, ?_⟩
    by_cases hf : (q, r) ∈ (dictKeys hex_map).toFinset
    · exact List.mem_toFinset.1 hf
    · have hmem : (q, r) ∈ findEmptyPositions (dictKeys hex_map).toFinset
          world_radius :=
        (mem_findEmptyPositions _ _ q r).2 ⟨hbounds, hf⟩
      rw [he] at hmem
      simp at hmem
  · rw [if_neg he]
    obtain ⟨m1, w1, rs1, heq, hkeys, hframe, hpres, hinv⟩ :=
      fillerLoop_spec cfg cfg.max_iterations
        (buildInitialFrontier
          (findEmptyPositions (dictKeys hex_map).toFinset world_radius)
          (dictKeys hex_map).toFinset)
        (initializeWave cfg
          (findEmptyPositions (dictKeys hex_map).toFinset world_radius)
          (dictKeys hex_map).toFinset hex_map)
        hex_map rs
    rw [heq]
    refine ⟨_, rfl, ?_⟩
    by_cases hf : (q, r) ∈ (dictKeys hex_map).toFinset
    · exact fillRemaining_mem w1 m1 rs1 (q, r)
        (Or.inl (hpres _ (List.mem_toFinset.1 hf)))
    · have hemem : (q, r) ∈ findEmptyPositions (dictKeys hex_map).toFinset
          world_radius :=
        (mem_findEmptyPositions _ _ q r).2 ⟨hbounds, hf⟩

      have hwk : (q, r) ∈ dictKeys w1 := by
        rw [hkeys, initializeWave_keys]
        exact hemem
      obtain ⟨c, hc⟩ := dictFind?_isSome_of_mem_keys _ _ hwk
      by_cases hcol : c.collapsed = true
      · have hbase : ∀ k c0,
            dictFind? (initializeWave cfg
              (findEmptyPositions (dictKeys hex_map).toFinset world_radius)
              (dictKeys hex_map).toFinset hex_map) k = some c0 →
            c0.collapsed = true → k ∈ dictKeys hex_map := by
          intro k c0 h0 hcol0
          rw [initializeWave_uncollapsed cfg _ _ hex_map k c0 h0] at hcol0
          cases hcol0
        exact fillRemaining_mem w1 m1 rs1 (q, r)
          (Or.inl (hinv hbase (q, r) c hc hcol))
      · exact fillRemaining_mem w1 m1 rs1 (q, r)
          (Or.inr ⟨c, mem_of_dictFind?_eq_some hc,
            Bool.not_eq_true c.collapsed ▸ hcol⟩)

/-- A filler configuration with the single terrain tag `surface` and no
transition data. -/
def cfgW0 : FillerConfig where
  all_terrain_tags := {"surface"}
  transitions := fun _ => none
  weights := fun _ _ => none
  max_iterations := 10000

/-- A zero random stream. -/
def rsW0 : RandFloatSrc := ⟨fun _ => 0, 0⟩

theorem generateFillers_total_coverage_witness :
    ∃ hex_map1, generateFillers cfgW0 [] 0 rsW0 = some hex_map1 ∧
      ((0 : Int), (0 : Int)) ∈ dictKeys hex_map1 :=
  generateFillers_total_coverage cfgW0 [] 0 rsW0 0 0 (by decide)

/-- The filler half of the no-overwrite claim. -/
theorem generateFillers_frame (cfg : FillerConfig)
    (hex_map : List ((Int × Int) × WorldHex)) (world_radius : Nat)
    (rs : RandFloatSrc) (k : Int × Int) (hk : k ∈ dictKeys hex_map) :
    ∃ hex_map1, generateFillers cfg hex_map world_radius rs = some hex_map1 ∧
      dictFind? hex_map1 k = dictFind? hex_map k := by
  simp only [generateFillers]
  by_cases he : findEmptyPositions (dictKeys hex_map).toFinset world_radius = ∅
  · rw [if_pos he]
    exact ⟨hex_map, rfl, rfl⟩
  · rw [if_neg he]
    obtain ⟨m1, w1, rs1, heq, hkeys, hframe, hpres, hinv⟩ :=
      fillerLoop_spec cfg cfg.max_iterations
        (buildInitialFrontier
          (findEmptyPositions (dictKeys hex_map).toFinset world_radius)
          (dictKeys hex_map).toFinset)
        (initializeWave cfg
          (findEmptyPositions (dictKeys hex_map).toFinset world_radius)
          (dictKeys hex_map).toFinset hex_map)
        hex_map rs
    rw [heq]
    refine ⟨_, rfl, ?_⟩
    obtain ⟨kq, kr⟩ := k
    have hkE : (kq, kr) ∉ findEmptyPositions (dictKeys hex_map).toFinset
        world_radius := fun hmem =>
      ((mem_findEmptyPositions _ _ kq kr).1 hmem).2 (List.mem_toFinset.2 hk)
    have hnkeys : (kq, kr) ∉ dictKeys
        (initializeWave cfg
          (findEmptyPositions (dictKeys hex_map).toFinset world_radius)
          (dictKeys hex_map).toFinset hex_map) := by
      rw [initializeWave_keys]
      exact hkE
    have hw1 : (kq, kr) ∉ dictKeys w1 := by
      rw [hkeys, initializeWave_keys]
      exact hkE
    rw [fillRemaining_find_of_notin w1 m1 rs1 (kq, kr) hw1]
    exact hframe (kq, kr) hnkeys

/-! ## assembly/assembler.py — the connector write pass of
`WorldAssembler._generate_connectors` -/

/-- The `WorldHex(...)` literal built from a `ConnectorHex` in
`_generate_connectors`. -/
def worldHexOfConnectorHex (world_q world_r : Int) (chex : ConnectorHex) :
    WorldHex where
  coord := ⟨world_q, world_r⟩
  terrain := chex.terrain
  elevation := chex.elevation
  moisture := chex.moisture
  temperature := 15
  species_fitness :=
    { human := chex.species_fitness.human,
      dwarf := chex.species_fitness.dwarf,
      elf := chex.species_fitness.elf }

/-- One iteration of the `for i, (world_q, world_r) in enumerate(path)`
write loop: write the connector hex only when the key is not already in
the map. -/
def connectorWriteStep (chexes : List ConnectorHex)
    (m : List ((Int × Int) × WorldHex)) (p : Nat × (Int × Int)) :
    List ((Int × Int) × WorldHex) :=
  if p.2 ∉ dictKeys m ∧ p.1 < chexes.length then
    match chexes.get? p.1 with
    | some chex => dictInsert m p.2 (worldHexOfConnectorHex p.2.1 p.2.2 chex)
    | none => m
  else m

/-- The full write loop of `_generate_connectors` for one connector
(lines 300–318 of `assembler.py`). -/
def connectorWritePass (hex_map : List ((Int × Int) × WorldHex))
    (path : List (Int × Int)) (chexes : List ConnectorHex) :
    List ((Int × Int) × WorldHex) :=
  path.enum.foldl (connectorWriteStep chexes) hex_map

theorem connectorWriteStep_frame (chexes : List ConnectorHex)
    (m : List ((Int × Int) × WorldHex)) (p : Nat × (Int × Int))
    (k : Int × Int) (hk : k ∈ dictKeys m) :
    dictFind? (connectorWriteStep chexes m p) k = dictFind? m k ∧
      k ∈ dictKeys (connectorWriteStep chexes m p) := by
  by_cases hc : p.2 ∉ dictKeys m ∧ p.1 < chexes.length
  · have hne : k ≠ p.2 := fun hkc => hc.1 (hkc ▸ hk)
    cases hg : chexes.get? p.1 with
    | none => simp only [connectorWriteStep, hc, if_true, hg]; exact ⟨rfl, hk⟩
    | some chex =>
        simp only [connectorWriteStep, hc, if_true, hg]
        exact ⟨dictFind?_insert_ne _ _ _ _ hne,
          (mem_dictKeys_insert ..).2 (Or.inr hk)⟩
  · rw [connectorWriteStep, if_neg hc]
    exact ⟨rfl, hk⟩

theorem connectorWriteFold_frame (chexes : List ConnectorHex) :
    ∀ (l : List (Nat × (Int × Int))) (m : List ((Int × Int) × WorldHex))
      (k : Int × Int), k ∈ dictKeys m →
      dictFind? (l.foldl (connectorWriteStep chexes) m) k = dictFind? m k ∧
        k ∈ dictKeys (l.foldl (connectorWriteStep chexes) m) := by
  intro l
  induction l with
  | nil => intro m k hk; exact ⟨rfl, hk⟩
  | cons p rest ih =>
      intro m k hk
      rw [List.foldl_cons]
      obtain ⟨hfind, hmem⟩ := connectorWriteStep_frame chexes m p k hk
      obtain ⟨hfind2, hmem2⟩ := ih _ k hmem
      exact ⟨hfind2.trans hfind, hmem2⟩

/-- The connector half of the no-overwrite claim. -/
theorem connectorWritePass_frame (hex_map : List ((Int × Int) × WorldHex))
    (path : List (Int × Int)) (chexes : List ConnectorHex) (k : Int × Int)
    (hk : k ∈ dictKeys hex_map) :
    dictFind? (connectorWritePass hex_map path chexes) k =
      dictFind? hex_map k :=
  (connectorWriteFold_frame chexes path.enum hex_map k hk).1

/-- C3: no hex is overwritten once placed — the filler returns every
pre-existing key bound to its original `WorldHex` (it only adds entries at
previously empty keys), and the assembler's connector write pass likewise
leaves every already-present binding untouched. -/
theorem firstWriterWins_spec :
    (∀ (cfg : FillerConfig) (hex_map : List ((Int × Int) × WorldHex))
      (world_radius : Nat) (rs : RandFloatSrc) (k : Int × Int),
      k ∈ dictKeys hex_map →
      ∃ hex_map1, generateFillers cfg hex_map world_radius rs =
        some hex_map1 ∧
        dictFind? hex_map1 k = dictFind? hex_map k) ∧
    (∀ (hex_map : List ((Int × Int) × WorldHex)) (path : List (Int × Int))
      (chexes : List ConnectorHex) (k : Int × Int),
      k ∈ dictKeys hex_map →
      dictFind? (connectorWritePass hex_map path chexes) k =
        dictFind? hex_map k) :=
  ⟨generateFillers_frame, connectorWritePass_frame⟩

/-- A sample world hex for the no-overwrite witness. -/
def worldHexW : WorldHex where
  coord := ⟨5, 5⟩
  terrain := Terrain.plains
  elevation := 200
  moisture := 1 / 2
  temperature := 15
  species_fitness := { human := 1 / 2, dwarf := 1 / 2, elf := 1 / 2 }

/-- A one-entry hex map. -/
def mapW : List ((Int × Int) × WorldHex) := [((5, 5), worldHexW)]

theorem firstWriterWins_spec_witness :
    (∃ hex_map1, generateFillers cfgW0 mapW 0 rsW0 = some hex_map1 ∧
      dictFind? hex_map1 (5, 5) = dictFind? mapW (5, 5)) ∧
    dictFind? (connectorWritePass mapW [(5, 5), (6, 5)]
        [plainsHexW 0, plainsHexW 1]) (5, 5) = dictFind? mapW (5, 5) :=
  ⟨firstWriterWins_spec.1 cfgW0 mapW 0 rsW0 (5, 5) (by decide),
   firstWriterWins_spec.2 mapW [(5, 5), (6, 5)] [plainsHexW 0, plainsHexW 1]
     (5, 5) (by decide)⟩

end Worldgen
